import Mathlib

/-!
Verification of the numeric core of `src/qtgui/plotter.cpp` (gqrx spectrum
plotter).  The C++ code is shallowly embedded over exact rationals: `float`
and `double` values become `ℚ`, machine integers become `ℤ`, buffers become
total functions `ℤ → ℚ`, and the external libm/volk transcendental functions
(`log10f`, `powf`) become explicit function parameters.  Every definition is
translated from the source; claims are then settled as theorems below.
-/

/-- Executable floor of a rational (Euclidean division of numerator by
denominator); equals Mathlib Int.floor (see qfloor_eq_floor). -/
def qfloor (q : ℚ) : ℤ := q.num / (q.den : ℤ)

/-- Executable ceiling of a rational; equals Mathlib Int.ceil. -/
def qceil (q : ℚ) : ℤ := -qfloor (-q)

/-- Qt qRound: rounds half away from zero ((int)(d + 0.5) for d >= 0,
(int)(d - 0.5) otherwise). -/
def qRound (q : ℚ) : ℤ := if 0 ≤ q then qfloor (q + 1/2) else qceil (q - 1/2)

/-- C cast from a floating value to int: truncation toward zero. -/
def cTrunc (q : ℚ) : ℤ := if 0 ≤ q then qfloor q else qceil q

/-- std::numeric_limits of float min, the `fmin` flooring constant used in
CPlotter::draw (line 1217). -/
def fminDraw : ℚ := 1 / 2 ^ 126

/-- The `fmin = 1e-20` flooring constant of CPlotter::setNewFftData
(line 1786). -/
def fminData : ℚ := 1 / 10 ^ 20

/-- Helper for intRange: the n consecutive integers starting at lo. -/
def intRangeAux (lo : ℤ) : ℕ → List ℤ
  | 0 => []
  | n + 1 => lo :: intRangeAux (lo + 1) n

/-- Inclusive integer range [lo, hi] as a list (empty when hi < lo);
models a C `for` loop over an integer index. -/
def intRange (lo hi : ℤ) : List ℤ := intRangeAux lo (hi + 1 - lo).toNat

/-- Pointwise update of a buffer modelled as a total function; models
`buf[k] = v`. -/
def updFn (f : ℤ → ℚ) (k : ℤ) (v : ℚ) : ℤ → ℚ := fun j => if j = k then v else f j

/-- Running maximum of a list, seeded from its first element, folded in the
order the C loops accumulate (`vmax = std::max(v, vmax)`).  Empty list gives 0
(never used on empty lists by the code paths modelled here). -/
def qRunMax : List ℚ → ℚ
  | [] => 0
  | v :: vs => vs.foldl (fun acc x => max x acc) v

/- ----------------------------------------------------------------- -/
/- Geometry of CPlotter::draw (plotter.cpp lines 1144-1166).          -/
/- ----------------------------------------------------------------- -/

/-- Configuration snapshot of the fields CPlotter::draw reads to derive its
bin/pixel geometry: `m_fftDataSize`, `m_SampleFreq`, `m_FftCenter`, `m_Span`
and the device-pixel width `w = m_Size.width() * m_DPR`. -/
structure DrawCfg where
  fftDataSize : ℤ
  sampleFreq : ℚ
  fftCenter : ℚ
  span : ℚ
  w : ℚ

/-- binsPerHz = fftSize / sampleFreq (line 1149). -/
def binsPerHz (c : DrawCfg) : ℚ := (c.fftDataSize : ℚ) / c.sampleFreq

/-- startFreq = fftCenter - span / 2 (line 1148). -/
def startFreq (c : DrawCfg) : ℚ := c.fftCenter - c.span / 2

/-- startBinD = startFreq * binsPerHz + fftSize / 2 (line 1156). -/
def startBinD (c : DrawCfg) : ℚ := startFreq c * binsPerHz c + (c.fftDataSize : ℚ) / 2

/-- startBin = min(qRound(startBinD), fftDataSize - 1) (line 1157). -/
def startBin (c : DrawCfg) : ℤ := min (qRound (startBinD c)) (c.fftDataSize - 1)

/-- numBins = ceil(span * binsPerHz) (line 1158). -/
def numBins (c : DrawCfg) : ℤ := qceil (c.span * binsPerHz c)

/-- endBin = startBin + numBins (line 1159). -/
def endBin (c : DrawCfg) : ℤ := startBin c + numBins c

/-- minbin = max(startBin, 1) (line 1160). -/
def minbin (c : DrawCfg) : ℤ := max (startBin c) 1

/-- maxbin = min(endBin + 1, fftDataSize - 1) (line 1161). -/
def maxbin (c : DrawCfg) : ℤ := min (endBin c + 1) (c.fftDataSize - 1)

/-- xScale = sampleFreq * w / fftSize / span (line 1152). -/
def xScale (c : DrawCfg) : ℚ := c.sampleFreq * c.w / (c.fftDataSize : ℚ) / c.span

/-- Continuous bin-to-pixel position xD = (i - startBin) * xScale
(line 1232). -/
def xD (c : DrawCfg) (i : ℤ) : ℚ := ((i - startBin c : ℤ) : ℚ) * xScale c

/-- Pixel column of bin i: x = qRound(xD) (line 1233). -/
def xOf (c : DrawCfg) (i : ℤ) : ℤ := qRound (xD c i)

/-- xmin = qRound((minbin - startBin) * xScale) (line 1163). -/
def xmin (c : DrawCfg) : ℤ := qRound (((minbin c - startBin c : ℤ) : ℚ) * xScale c)

/-- xmax = min(qRound((maxbin - startBin) * xScale), qRound(w)) (line 1164). -/
def xmax (c : DrawCfg) : ℤ :=
  min (qRound (((maxbin c - startBin c : ℤ) : ℚ) * xScale c)) (qRound c.w)

/-- The bin indices visited by the aggregation loop:
`for (i = minbin; i <= maxbin; i++)` (line 1230). -/
def binList (c : DrawCfg) : List ℤ := intRange (minbin c) (maxbin c)

/-- Plot mode enum PLOT_MODE_* from plotter.h (values referenced throughout
plotter.cpp). -/
inductive PlotMode where
  | pmMax
  | pmAvg
  | pmFilled
  | pmHistogram
deriving DecidableEq

/-- peakIsAverage = (m_PlotMode == PLOT_MODE_AVG) (line 1212). -/
def peakIsAverage (m : PlotMode) : Bool := m == PlotMode.pmAvg

/-- minIsAverage = (m_PlotMode != PLOT_MODE_MAX) (line 1214). -/
def minIsAverage (m : PlotMode) : Bool := !(m == PlotMode.pmMax)

/- ----------------------------------------------------------------- -/
/- The bin-to-column aggregation pass (plotter.cpp lines 1219-1353).  -/
/- ----------------------------------------------------------------- -/

/-- The per-column output buffers written by the aggregation pass together
with the hold-validity flags: `m_wfMaxBuf`, `m_wfAvgBuf`, `m_fftMaxBuf`,
`m_fftAvgBuf`, `m_fftMaxHoldBuf`, `m_fftMinHoldBuf`, `m_MaxHoldValid`,
`m_MinHoldValid`. -/
structure AggBufs where
  wfMax : ℤ → ℚ
  wfAvg : ℤ → ℚ
  fftMax : ℤ → ℚ
  fftAvg : ℤ → ℚ
  maxHold : ℤ → ℚ
  minHold : ℤ → ℚ
  maxHoldValid : Bool
  minHoldValid : Bool

/-- Loop state of the oversampled aggregation: the output buffers plus the
run accumulators `vmax`, `vmaxIIR`, `vsum`, `vsumIIR`, `count`, `xprev`,
`first` (lines 1219-1228).  `written` is a ghost log of the columns flushed,
recording which columns the pass writes. -/
structure AggState where
  bufs : AggBufs
  vmax : ℚ
  vmaxIIR : ℚ
  vsum : ℚ
  vsumIIR : ℚ
  count : ℤ
  xprev : ℤ
  first : Bool
  written : List ℤ

/-- The flush of one finished run to column k (lines 1269-1290): floor the
accumulated max values and the averages at `fminDraw`, store them, and update
both holds from the mode-selected reference value. -/
def flushBufs (P Mn : Bool) (b : AggBufs) (k : ℤ)
    (vmax vmaxIIR vsum vsumIIR : ℚ) (count : ℤ) : AggBufs :=
  let vmaxF := max vmax fminDraw
  let vmaxIIRF := max vmaxIIR fminDraw
  let vavgF := max (vsum / (count : ℚ)) fminDraw
  let vavgIIRF := max (vsumIIR / (count : ℚ)) fminDraw
  let newPeak := if P then vavgIIRF else vmaxIIRF
  let newMin := if Mn then vavgIIRF else vmaxIIRF
  { b with
    wfMax := updFn b.wfMax k vmaxF
    fftMax := updFn b.fftMax k vmaxIIRF
    wfAvg := updFn b.wfAvg k vavgF
    fftAvg := updFn b.fftAvg k vavgIIRF
    maxHold := updFn b.maxHold k
      (if b.maxHoldValid then max (b.maxHold k) newPeak else newPeak)
    minHold := updFn b.minHold k
      (if b.minHoldValid then min (b.minHold k) newMin else newMin) }

/-- One iteration of the oversampled aggregation loop body (lines 1230-1310)
for a bin with column x, raw value v and IIR value viir; `isLast` is the
`i == maxbin` test.  Order follows the source: the `first` initialization,
then the flush-or-accumulate branch. -/
def aggStep (P Mn : Bool) (x : ℤ) (v viir : ℚ) (isLast : Bool)
    (s : AggState) : AggState :=
  let s1 := if s.first then
      { s with vmax := v, vmaxIIR := viir, vsum := v, vsumIIR := viir, count := 1 }
    else s
  if x ≠ s1.xprev ∨ isLast = true then
    { s1 with
      bufs := flushBufs P Mn s1.bufs s1.xprev s1.vmax s1.vmaxIIR s1.vsum s1.vsumIIR s1.count,
      vmax := v, vmaxIIR := viir, vsum := v, vsumIIR := viir, count := 1,
      xprev := x, first := false,
      written := s1.xprev :: s1.written }
  else if s1.first = false then
    { s1 with
      vmax := max v s1.vmax, vmaxIIR := max viir s1.vmaxIIR,
      vsum := s1.vsum + v, vsumIIR := s1.vsumIIR + viir,
      count := s1.count + 1, first := false }
  else
    { s1 with first := false }

/-- The aggregation loop over a list of bin indices; the final element plays
the role of `i == maxbin`. -/
def aggLoop (P Mn : Bool) (xOfF : ℤ → ℤ) (raw iir : ℤ → ℚ) :
    List ℤ → AggState → AggState
  | [], s => s
  | [i], s => aggStep P Mn (xOfF i) (raw i) (iir i) true s
  | i :: j :: rest, s =>
      aggLoop P Mn xOfF raw iir (j :: rest)
        (aggStep P Mn (xOfF i) (raw i) (iir i) false s)

/-- Initial loop state: `xprev = xmin`, `first = true` (lines 1227-1228);
the accumulators are dead until the first iteration initializes them. -/
def initAggState (b : AggBufs) (x0 : ℤ) : AggState :=
  { bufs := b, vmax := 0, vmaxIIR := 0, vsum := 0, vsumIIR := 0,
    count := 1, xprev := x0, first := true, written := [] }

/-- The full oversampled aggregation pass (lines 1224-1314): run the loop
over [minbin, maxbin] and then mark both holds valid (lines 1312-1313). -/
def aggregateOversampled (c : DrawCfg) (mode : PlotMode) (raw iir : ℤ → ℚ)
    (b : AggBufs) : AggState :=
  let s := aggLoop (peakIsAverage mode) (minIsAverage mode) (xOf c) raw iir
      (binList c) (initAggState b (xmin c))
  { s with bufs := { s.bufs with maxHoldValid := true, minHoldValid := true } }

/-- Nearest-bin index j = qRound(i / xScale + startBinD) used by the
undersampled branch (line 1320). -/
def jOf (c : DrawCfg) (x : ℤ) : ℤ := qRound ((x : ℚ) / xScale c + startBinD c)

/-- The undersampled branch (lines 1316-1353): every column x in
[xmin, xmax) samples the single nearest bin; max and avg collapse to the
sampled value; holds update from the sampled IIR value; the hold-validity
flags are NOT set by this branch. -/
def undersampledBufs (c : DrawCfg) (raw iir : ℤ → ℚ) (b : AggBufs) : AggBufs :=
  { wfMax := fun x => if xmin c ≤ x ∧ x < xmax c then raw (jOf c x) else b.wfMax x
    wfAvg := fun x => if xmin c ≤ x ∧ x < xmax c then raw (jOf c x) else b.wfAvg x
    fftMax := fun x => if xmin c ≤ x ∧ x < xmax c then iir (jOf c x) else b.fftMax x
    fftAvg := fun x => if xmin c ≤ x ∧ x < xmax c then iir (jOf c x) else b.fftAvg x
    maxHold := fun x => if xmin c ≤ x ∧ x < xmax c then
        (if b.maxHoldValid then max (b.maxHold x) (iir (jOf c x)) else iir (jOf c x))
      else b.maxHold x
    minHold := fun x => if xmin c ≤ x ∧ x < xmax c then
        (if b.minHoldValid then min (b.minHold x) (iir (jOf c x)) else iir (jOf c x))
      else b.minHold x
    maxHoldValid := b.maxHoldValid
    minHoldValid := b.minHoldValid }

/-- The aggregation stage of CPlotter::draw: oversampled branch when
`numBins >= w` (line 1224), undersampled otherwise (line 1316).  Returns the
buffers and the ghost list of columns written. -/
def drawPass (c : DrawCfg) (mode : PlotMode) (raw iir : ℤ → ℚ) (b : AggBufs) :
    AggBufs × List ℤ :=
  if c.w ≤ (numBins c : ℚ) then
    let s := aggregateOversampled c mode raw iir b
    (s.bufs, s.written)
  else
    (undersampledBufs c raw iir b, intRange (xmin c) (xmax c - 1))

/- ----------------------------------------------------------------- -/
/- IIR smoother of CPlotter::setNewFftData (lines 1783-1864).         -/
/- ----------------------------------------------------------------- -/

/-- Plot scale enum PLOT_SCALE_* (dBFS / dBV / dBm into 50 ohm). -/
inductive PlotScale where
  | dbfs
  | dbv
  | dbmw50
deriving DecidableEq

/-- pwr_scale computation of setNewFftData (lines 1811-1830). -/
def pwrScale (size : ℤ) (ps : PlotScale) (perHz : Bool) (sampleFreq : ℚ) : ℚ :=
  let p : ℚ := 1 / ((size : ℚ) * (size : ℚ))
  let p : ℚ :=
    match ps with
    | PlotScale.dbfs => p
    | PlotScale.dbv => p * (1 / 2)
    | PlotScale.dbmw50 => p * (1000 / (2 * 50))
  if perHz = true ∧ ps ≠ PlotScale.dbfs then p * ((size : ℚ) / sampleFreq) else p

/-- The scaled-and-floored raw frame:
`m_fftData[i] = max(fftData[i] * pwr_scale, fmin)` (lines 1831-1832). -/
def scaledFrame (size : ℤ) (ps : PlotScale) (perHz : Bool) (sampleFreq : ℚ)
    (input : ℤ → ℚ) : ℤ → ℚ :=
  fun i => max (input i * pwrScale size ps perHz sampleFreq) fminData

/-- The smoothing exponent `a` derived from the averaging slider and the fft
rate (lines 1841-1845), with `powf` abstracted as a parameter. -/
def smoothA (powF : ℚ → ℚ → ℚ) (rate alpha : ℚ) : ℚ :=
  powF (powF rate (-(7/4) * (1 - alpha))) (7/10)

/-- One IIR update (lines 1848-1859): the multiplicative update
`iir[i] = iir[i] * (data[i]/iir[i])^a` when the IIR is valid and `a != 1`,
otherwise the memcpy shortcut `iir = data`. -/
def iirNext (powF : ℚ → ℚ → ℚ) (a : ℚ) (iirValid : Bool) (data iirPrev : ℤ → ℚ) :
    ℤ → ℚ :=
  if iirValid = true ∧ a ≠ 1 then
    fun i => iirPrev i * powF (data i / iirPrev i) a
  else
    data

/-- Feeding frames repeatedly: state is (IIR buffer, m_IIRValid); each
setNewFftData call updates the IIR and then sets `m_IIRValid = true`
(line 1861). -/
def iirIter (powF : ℚ → ℚ → ℚ) (a : ℚ) (data : ℤ → ℚ) :
    ℕ → (ℤ → ℚ) × Bool → (ℤ → ℚ) × Bool
  | 0, st => st
  | n + 1, st =>
      let st1 := iirIter powF a data n st
      (iirNext powF a st1.2 data st1.1, true)

/- ----------------------------------------------------------------- -/
/- dB-range setters (lines 69-79 and 1877-1896).                      -/
/- ----------------------------------------------------------------- -/

/-- FFT_MIN_DB (plotter.cpp line 50). -/
def fftMinDb : ℚ := -160

/-- FFT_MAX_DB (line 51). -/
def fftMaxDb : ℚ := 30

/-- FFT_MIN_DB_RANGE (line 52). -/
def fftMinDbRange : ℚ := 2

/-- val_is_out_of_range(val, min, max) (lines 69-72). -/
def valIsOutOfRange (v mn mx : ℚ) : Bool := decide (v < mn) || decide (mx < v)

/-- out_of_range(min, max) (lines 74-79). -/
def outOfRange (mn mx : ℚ) : Bool :=
  valIsOutOfRange mn fftMinDb fftMaxDb || valIsOutOfRange mx fftMinDb fftMaxDb ||
    decide (mx < mn + fftMinDbRange)

/-- State touched by setPandapterRange: the stored range and
`m_histIIRValid`. -/
structure PandRange where
  mindB : ℚ
  maxdB : ℚ
  histIIRValid : Bool

/-- CPlotter::setPandapterRange (lines 1877-1886): rejected ranges leave the
state unchanged; accepted ranges are stored and invalidate the histogram
IIR. -/
def setPandapterRange (mn mx : ℚ) (st : PandRange) : PandRange :=
  if outOfRange mn mx = true then st
  else { mindB := mn, maxdB := mx, histIIRValid := false }

/-- Stored waterfall dB range. -/
structure WfRange where
  mindB : ℚ
  maxdB : ℚ

/-- CPlotter::setWaterfallRange (lines 1888-1896). -/
def setWaterfallRange (mn mx : ℚ) (st : WfRange) : WfRange :=
  if outOfRange mn mx = true then st
  else { mindB := mn, maxdB := mx }

/- ----------------------------------------------------------------- -/
/- Colormap builder CPlotter::setWfColormap (lines 3652-3738).        -/
/- ----------------------------------------------------------------- -/

/-- An RGB triple as stored by QColor::setRgb. -/
abbrev RGB := ℤ × ℤ × ℤ

/-- ASCII lowering of one character; models the effect of
Qt::CaseInsensitive comparison for the ASCII colormap names. -/
def lowerChar (ch : Char) : Char :=
  if 65 ≤ ch.toNat ∧ ch.toNat ≤ 90 then Char.ofNat (ch.toNat + 32) else ch

/-- Case-normalized name of a colormap (QString modelled as a char list). -/
def lowerName (s : List Char) : List Char := s.map lowerChar

/-- Write all 256 entries from a scheme function, leaving other indices (the
rest of the heap, not part of the table) untouched. -/
def writeTbl (f : ℤ → RGB) (old : ℤ → RGB) : ℤ → RGB :=
  fun i => if 0 ≤ i ∧ i < 256 then f i else old i

/-- Entry i of the built-in "gqrx" piecewise-linear colormap
(lines 3656-3679); `/` is C integer division (all operands nonnegative on
0 <= i < 256). -/
def gqrxEntry (i : ℤ) : RGB :=
  if i < 20 then (0, 0, 0)
  else if i < 70 then (0, 0, 140 * (i - 20) / 50)
  else if i < 100 then (60 * (i - 70) / 30, 125 * (i - 70) / 30, 115 * (i - 70) / 30 + 140)
  else if i < 150 then (195 * (i - 100) / 50 + 60, 130 * (i - 100) / 50 + 125, 255 - 255 * (i - 100) / 50)
  else if i < 250 then (255, 255 - 255 * (i - 150) / 100, 0)
  else (255, 255 * (i - 250) / 5, 255 * (i - 250) / 5)

/-- Entry i of the "whitehotcompressed" colormap (lines 3690-3706). -/
def whcEntry (i : ℤ) : RGB :=
  if i < 64 then (i * 4, i * 4, i * 4) else (255, 255, 255)

/-- Scaling of one float-valued table entry by 256 with the C float-to-int
truncation of QColor::setRgb arguments (lines 3717-3736). -/
def scale256 (e : ℚ × ℚ × ℚ) : RGB :=
  (cTrunc (e.1 * 256), cTrunc (e.2.1 * 256), cTrunc (e.2.2 * 256))

/-- The recognized colormap names, lowercase. -/
def cmapNames : List (List Char) :=
  [['g','q','r','x'], ['t','u','r','b','o'], ['p','l','a','s','m','a'],
   ['w','h','i','t','e','h','o','t','c','o','m','p','r','e','s','s','e','d'],
   ['w','h','i','t','e','h','o','t'], ['b','l','a','c','k','h','o','t'],
   ['v','i','r','i','d','i','s'], ['m','a','g','m','a'],
   ['i','n','f','e','r','n','o'], ['g','r','a','p','e']]

/-- CPlotter::setWfColormap (lines 3652-3738).  The six embedded constant
tables (turbo, plasma int tables; viridis, magma, inferno, grape float
tables) are passed as parameters; the claim settled about this builder does
not depend on their entries. -/
def setWfColormap (turboT plasmaT : ℤ → RGB) (viridisT magmaT infernoT grapeT : ℤ → ℚ × ℚ × ℚ)
    (cmap : List Char) (old : ℤ → RGB) : ℤ → RGB :=
  let c := lowerName cmap
  if c = ['g','q','r','x'] then writeTbl gqrxEntry old
  else if c = ['t','u','r','b','o'] then writeTbl turboT old
  else if c = ['p','l','a','s','m','a'] then writeTbl plasmaT old
  else if c = ['w','h','i','t','e','h','o','t','c','o','m','p','r','e','s','s','e','d'] then
    writeTbl whcEntry old
  else if c = ['w','h','i','t','e','h','o','t'] then
    writeTbl (fun i => (i, i, i)) old
  else if c = ['b','l','a','c','k','h','o','t'] then
    writeTbl (fun i => (255 - i, 255 - i, 255 - i)) old
  else if c = ['v','i','r','i','d','i','s'] then writeTbl (fun i => scale256 (viridisT i)) old
  else if c = ['m','a','g','m','a'] then writeTbl (fun i => scale256 (magmaT i)) old
  else if c = ['i','n','f','e','r','n','o'] then writeTbl (fun i => scale256 (infernoT i)) old
  else if c = ['g','r','a','p','e'] then writeTbl (fun i => scale256 (grapeT i)) old
  else old

/- ----------------------------------------------------------------- -/
/- Waterfall line engine (lines 1355-1440, 598-602).                  -/
/- ----------------------------------------------------------------- -/

/-- Waterfall mode enum WATERFALL_MODE_*. -/
inductive WfMode where
  | wfmMax
  | wfmAvg
  | wfmSync
deriving DecidableEq

/-- Data source selection for the waterfall (lines 1359-1378). -/
def wfDataSource (wm : WfMode) (pm : PlotMode) (b : AggBufs) : ℤ → ℚ :=
  match wm with
  | WfMode.wfmAvg => b.wfAvg
  | WfMode.wfmSync => if pm = PlotMode.pmMax then b.fftMax else b.fftAvg
  | WfMode.wfmMax => b.wfMax

/-- CPlotter::clearWaterfallBuf (lines 598-602): the accumulator is zeroed. -/
def clearedWfBuf : ℤ → ℚ := fun _ => 0

/-- Per-frame folding of the data source into the waterfall accumulator
(lines 1380-1396).  Note the loop index: slot `i` for `0 <= i < npts` is
folded with `dataSource[i]` (no `xmin` offset).  Returns the new accumulator
and `wf_avg_count`. -/
def wfAccumFrame (wm : WfMode) (mpw : ℚ) (npts : ℤ) (ds : ℤ → ℚ)
    (st : (ℤ → ℚ) × ℤ) : (ℤ → ℚ) × ℤ :=
  if 0 < mpw then
    if wm ≠ WfMode.wfmMax then
      (fun i => if 0 ≤ i ∧ i < npts then st.1 i + ds i else st.1 i, st.2 + 1)
    else
      (fun i => if 0 ≤ i ∧ i < npts then max (st.1 i) (ds i) else st.1 i, st.2)
  else st

/-- The lineFactor used on emission (lines 1417-1423). -/
def wfLineFactor (wm : WfMode) (mpw : ℚ) (avgCount : ℤ) : ℚ :=
  if 0 < mpw ∧ wm ≠ WfMode.wfmMax then 1 / (avgCount : ℚ) else 1

/-- The color-mapped pixel of the freshly emitted waterfall row at image
position p (lines 1409-1434): positions outside [xmin, xmin + npts) hold the
memset black; inside, the accumulated (or live) value is converted to a
colormap index `cidx = clamp(qRound((maxDb - 10*log10(v))*gain), 0, 255)`
and the written color is `colorTbl(255 - cidx)`. -/
def wfEmitRow (log10F : ℚ → ℚ) (colorTbl : ℤ → RGB) (wfMaxdB gain mpw : ℚ)
    (wm : WfMode) (avgCount : ℤ) (wfbuf ds : ℤ → ℚ) (xminV npts : ℤ)
    (p : ℤ) : RGB :=
  if xminV ≤ p ∧ p < xminV + npts then
    let useWfBuf := 0 < mpw
    let v := if useWfBuf then wfbuf p * wfLineFactor wm mpw avgCount else ds p
    let cidx := qRound ((wfMaxdB - 10 * log10F v) * gain)
    let cidx2 := max (min cidx 255) 0
    colorTbl (255 - cidx2)
  else (0, 0, 0)

/-- Accumulator state after the emission block (lines 1436-1438): cleared
when in manual-span mode. -/
def wfAfterEmit (mpw : ℚ) (wfbuf : ℤ → ℚ) : ℤ → ℚ :=
  if 0 < mpw then clearedWfBuf else wfbuf

/- ----------------------------------------------------------------- -/
/- Histogram accumulation (lines 1176-1193, 1248-1266, 1338-1351).    -/
/- ----------------------------------------------------------------- -/

/-- histBinsDisplayed = min(MAX_HISTOGRAM_SIZE, max(32, qRound(32 * numBins
/ 2048))) (lines 1179-1183); the header constant MAX_HISTOGRAM_SIZE is the
parameter `histMax`. -/
def histBinsDisplayed (histMax nbins : ℤ) : ℤ :=
  min histMax (max 32 (qRound (32 * (nbins : ℚ) / 2048)))

/-- histWeight = 10e6 * frameTime / histBinsDisplayed / fftSize
(line 1186); `10e6` is ten million and frameTime = 1/fft_rate. -/
def histWeightOf (rate : ℚ) (histBins fftSize : ℤ) : ℚ :=
  10000000 * (1 / rate) / (histBins : ℚ) / (fftSize : ℚ)

/-- histdBGainFactor = histBinsDisplayed / |PandMaxdB - PandMindB|
(line 1189). -/
def histdBGainFactor (histBins : ℤ) (mindB maxdB : ℚ) : ℚ :=
  (histBins : ℚ) / |maxdB - mindB|

/-- The fractional vertical bin position of a sample value
(lines 1253, 1343). -/
def histBinD (log10F : ℚ → ℚ) (gain maxdB : ℚ) (v : ℚ) : ℚ :=
  gain * (maxdB - 10 * log10F v)

/-- The list of (cell, weight) increments contributed by one source sample of
the oversampled branch (lines 1251-1265): out-of-range samples contribute
nothing, in-range samples splat across up to 4 cells. -/
def histSampleAdds (log10F : ℚ → ℚ) (gain maxdB hW : ℚ) (histBins nbins : ℤ)
    (xDv v : ℚ) : List ((ℤ × ℤ) × ℚ) :=
  let binD := histBinD log10F gain maxdB v
  if 0 < binD ∧ binD < (histBins : ℚ) then
    let binLeft := max (cTrunc (xDv - 1/2)) 0
    let binRight := min (binLeft + 1) (nbins - 1)
    let binLow := min (max (cTrunc (binD - 1/2)) 0) (histBins - 1)
    let binHigh := min (binLow + 1) (histBins - 1)
    let wgtH := (xDv - (binLeft : ℚ)) / 2
    let wgtV := (binD - (binLow : ℚ)) / 2
    [((binLeft, binLow), (1 - wgtV) * (1 - wgtH) * hW),
     ((binLeft, binHigh), wgtV * (1 - wgtH) * hW),
     ((binRight, binLow), (1 - wgtV) * wgtH * hW),
     ((binRight, binHigh), wgtV * wgtH * hW)]
  else []

/-- All histogram increments of one oversampled frame: the histogram block
runs for every bin i in [minbin, maxbin] with sample value `m_fftData[i]`
and horizontal position xD (lines 1230-1266). -/
def histFrameAdds (log10F : ℚ → ℚ) (gain maxdB hW : ℚ) (histBins : ℤ)
    (c : DrawCfg) (raw : ℤ → ℚ) : List ((ℤ × ℤ) × ℚ) :=
  (binList c).foldr
    (fun i acc => histSampleAdds log10F gain maxdB hW histBins (numBins c) (xD c i) (raw i) ++ acc)
    []

/-- The increments contributed by one column of the undersampled branch
(lines 1341-1351): a 2-cell vertical splat at column x. -/
def histSampleAddsU (log10F : ℚ → ℚ) (gain maxdB hW : ℚ) (histBins : ℤ)
    (x : ℤ) (v : ℚ) : List ((ℤ × ℤ) × ℚ) :=
  let binD := histBinD log10F gain maxdB v
  if 0 < binD ∧ binD < (histBins : ℚ) then
    let binLow := min (max (cTrunc (binD - 1/2)) 0) (histBins - 1)
    let binHigh := min (binLow + 1) (histBins - 1)
    let wgt := (binD - (binLow : ℚ)) / 2
    [((x, binLow), (1 - wgt) * hW), ((x, binHigh), wgt * hW)]
  else []

/- ----------------------------------------------------------------- -/
/- Peak detection (lines 1638-1718).                                  -/
/- ----------------------------------------------------------------- -/

/-- Data source selection for peak detection (lines 1643-1651). -/
def detectSrc (maxHoldActive : Bool) (pm : PlotMode) (b : AggBufs) : ℤ → ℚ :=
  if maxHoldActive then b.maxHold
  else if pm = PlotMode.pmAvg then b.fftAvg
  else b.fftMax

/-- The (minV, maxV, sumV) fold over the symmetric window of half-width h
centred at ix (lines 1663-1671 and 1688-1696): minV is seeded from the
centre value, maxV from 0, sum from 0. -/
def winFold (buf : ℤ → ℚ) (ix h : ℤ) : ℚ × ℚ × ℚ :=
  (intRange (-h) h).foldl
    (fun acc j => (min acc.1 (buf (ix + j)), max acc.2.1 (buf (ix + j)), acc.2.2 + buf (ix + j)))
    (buf ix, 0, 0)

/-- The display y-coordinate of a peak of value vi (lines 1676-1678). -/
def peakY (log10F : ℚ → ℚ) (gain maxdB plotH : ℚ) (vi : ℚ) : ℚ :=
  max (min (gain * (maxdB - 10 * log10F vi)) plotH) 0

/-- State across the two detection passes: the smoothed curve buffer
`m_peakSmoothBuf` and the peak map `m_Peaks`. -/
structure PeakState where
  smooth : ℤ → ℚ
  peaks : ℤ → Option ℚ

/-- One iteration of pass 1 (narrow peaks, lines 1660-1681) at column ix:
store the windowed mean into the smooth buffer and flag ix when it is the
window max and exceeds 2x the window mean and 4x the window min. -/
def pass1Step (src : ℤ → ℚ) (pw : ℤ) (log10F : ℚ → ℚ) (gain maxdB plotH : ℚ)
    (st : PeakState) (ix : ℤ) : PeakState :=
  let vi := src ix
  let f := winFold src ix pw
  let avgV := f.2.2 / ((pw * 2 + 1 : ℤ) : ℚ)
  let st1 : PeakState := { st with smooth := updFn st.smooth ix avgV }
  if vi = f.2.1 ∧ 2 * avgV < vi ∧ 4 * f.1 < vi then
    { st1 with peaks := fun k =>
        if k = ix then some (peakY log10F gain maxdB plotH vi) else st1.peaks k }
  else st1

/-- Pass 1 over all interior columns ix in [xmin + pw, xmin + npts - pw)
(line 1660); the peak map was cleared beforehand (line 1657) and the smooth
buffer keeps its previous contents outside the written range. -/
def pass1 (src : ℤ → ℚ) (pw : ℤ) (log10F : ℚ → ℚ) (gain maxdB plotH : ℚ)
    (smooth0 : ℤ → ℚ) (xminV npts : ℤ) : PeakState :=
  (intRange (xminV + pw) (xminV + npts - pw - 1)).foldl
    (pass1Step src pw log10F gain maxdB plotH)
    { smooth := smooth0, peaks := fun _ => none }

/-- One iteration of pass 2 (wide peaks, lines 1685-1717) at column ix over
the smoothed curve: the analogous test with half-width pw2 = 5*pw, but the
window mean is the window sum divided by `pw2 * 2`; an insertion happens only
when no already-recorded peak lies within pw columns. -/
def pass2Step (smooth : ℤ → ℚ) (pw pw2 : ℤ) (log10F : ℚ → ℚ)
    (gain maxdB plotH : ℚ) (peaks : ℤ → Option ℚ) (ix : ℤ) : ℤ → Option ℚ :=
  let vi := smooth ix
  let f := winFold smooth ix pw2
  let avgV := f.2.2 / ((pw2 * 2 : ℤ) : ℚ)
  if vi = f.2.1 ∧ 2 * avgV < vi ∧ 4 * f.1 < vi then
    if (intRange (-pw) pw).any (fun j => (peaks (ix + j)).isSome) then peaks
    else fun k =>
      if k = ix then some (peakY log10F gain maxdB plotH vi) else peaks k
  else peaks

/-- Pass 2 over all columns ix in [xmin + pw2, xmin + npts - pw2) with
pw2 = 5 * pw (lines 1684-1685). -/
def pass2 (smooth : ℤ → ℚ) (pw : ℤ) (log10F : ℚ → ℚ) (gain maxdB plotH : ℚ)
    (peaks : ℤ → Option ℚ) (xminV npts : ℤ) : ℤ → Option ℚ :=
  (intRange (xminV + pw * 5) (xminV + npts - pw * 5 - 1)).foldl
    (pass2Step smooth pw (pw * 5) log10F gain maxdB plotH)
    peaks

/-- The full peak detection (lines 1655-1717): pass 1 then pass 2. -/
def peakDetect (src : ℤ → ℚ) (pw : ℤ) (log10F : ℚ → ℚ) (gain maxdB plotH : ℚ)
    (smooth0 : ℤ → ℚ) (xminV npts : ℤ) : PeakState :=
  let st := pass1 src pw log10F gain maxdB plotH smooth0 xminV npts
  { st with peaks := pass2 st.smooth pw log10F gain maxdB plotH st.peaks xminV npts }

/-- Pass 2 as the frozen claim describes it: THE SAME test as pass 1 (window
mean = sum / (2*pw2 + 1)) applied to the smoothed curve, with a wide peak
recorded only if no NARROW peak lies within pw columns.  Used only to refute
the claim against the embedded code. -/
def claimPass2Step (smooth : ℤ → ℚ) (narrow : ℤ → Option ℚ) (pw pw2 : ℤ)
    (log10F : ℚ → ℚ) (gain maxdB plotH : ℚ) (peaks : ℤ → Option ℚ) (ix : ℤ) :
    ℤ → Option ℚ :=
  let vi := smooth ix
  let f := winFold smooth ix pw2
  let avgV := f.2.2 / ((pw2 * 2 + 1 : ℤ) : ℚ)
  if vi = f.2.1 ∧ 2 * avgV < vi ∧ 4 * f.1 < vi then
    if (intRange (-pw) pw).any (fun j => (narrow (ix + j)).isSome) then peaks
    else fun k =>
      if k = ix then some (peakY log10F gain maxdB plotH vi) else peaks k
  else peaks

/-- The claim's version of the full detection. -/
def claimPeakDetect (src : ℤ → ℚ) (pw : ℤ) (log10F : ℚ → ℚ)
    (gain maxdB plotH : ℚ) (smooth0 : ℤ → ℚ) (xminV npts : ℤ) : PeakState :=
  let st := pass1 src pw log10F gain maxdB plotH smooth0 xminV npts
  let pk := (intRange (xminV + pw * 5) (xminV + npts - pw * 5 - 1)).foldl
    (claimPass2Step st.smooth st.peaks pw (pw * 5) log10F gain maxdB plotH) st.peaks
  { st with peaks := pk }

/- ----------------------------------------------------------------- -/
/- Spec-level descriptions used by the theorems.                      -/
/- ----------------------------------------------------------------- -/

/-- Two buffer sets agree at column t. -/
def bufsAgreeAt (b1 b2 : AggBufs) (t : ℤ) : Prop :=
  b1.wfMax t = b2.wfMax t ∧ b1.wfAvg t = b2.wfAvg t ∧ b1.fftMax t = b2.fftMax t ∧
    b1.fftAvg t = b2.fftAvg t ∧ b1.maxHold t = b2.maxHold t ∧ b1.minHold t = b2.minHold t

/-- The mode-selected hold reference value of a run M: the floored IIR
average when `useAvg`, the floored IIR maximum otherwise. -/
def refVal (useAvg : Bool) (iir : ℤ → ℚ) (M : List ℤ) : ℚ :=
  if useAvg then max ((M.map iir).sum / (M.length : ℚ)) fminDraw
  else max (qRunMax (M.map iir)) fminDraw

/-- Column t of buffers b holds exactly the flush of run M computed over the
prior buffers b0. -/
def flushedAt (P Mn : Bool) (b0 b : AggBufs) (raw iir : ℤ → ℚ) (M : List ℤ)
    (t : ℤ) : Prop :=
  b.wfMax t = max (qRunMax (M.map raw)) fminDraw ∧
  b.fftMax t = max (qRunMax (M.map iir)) fminDraw ∧
  b.wfAvg t = max ((M.map raw).sum / (M.length : ℚ)) fminDraw ∧
  b.fftAvg t = max ((M.map iir).sum / (M.length : ℚ)) fminDraw ∧
  b.maxHold t = (if b0.maxHoldValid = true then max (b0.maxHold t) (refVal P iir M)
    else refVal P iir M) ∧
  b.minHold t = (if b0.minHoldValid = true then min (b0.minHold t) (refVal Mn iir M)
    else refVal Mn iir M)

/-- Shared initial buffer contents for the concrete test instances: a
sentinel value everywhere, holds invalid. -/
def bufInit : AggBufs :=
  ⟨fun _ => 999, fun _ => 999, fun _ => 999, fun _ => 999, fun _ => 999, fun _ => 999,
   false, false⟩

/-- Concrete oversampled configuration with a skipped column: sampleFreq 1250,
fftSize 4000, span 1 Hz, width 4 px, so xScale = 5/4 > 1 while numBins = 4
>= w = 4. -/
def cfgSkip : DrawCfg := ⟨4000, 1250, 0, 1, 4⟩

/-- Concrete oversampled configuration for witnesses: 1000 bins over 1000 Hz,
span 4 Hz, width 2 px (two bins per column). -/
def cfgRun : DrawCfg := ⟨1000, 1000, 0, 4, 2⟩

/-- Concrete raw/IIR frame for cfgRun: bin 499 holds 4, all others 1. -/
def rawRun : ℤ → ℚ := fun i => if i = 499 then 4 else 1

/-- Concrete undersampled configuration: 1000 bins over 1000 Hz, span 5 Hz,
width 10 px, so numBins = 5 < w = 10 and startBinD = 497.5. -/
def cfgU : DrawCfg := ⟨1000, 1000, 0, 5, 10⟩

/-- Concrete frame for cfgU: bin 499 holds 2, all others 1. -/
def rawU : ℤ → ℚ := fun i => if i = 499 then 2 else 1

/-- The bins the oversampled pass maps to column t. -/
def mappedBins (c : DrawCfg) (t : ℤ) : List ℤ :=
  (binList c).filter (fun i => xOf c i == t)

/-- Nearest-bin index as the specification words it: round(x / xScale +
startBin), with the ROUNDED integer start bin in place of the unrounded
startBinD that the code uses at line 1320. -/
def claimJOf (c : DrawCfg) (x : ℤ) : ℤ :=
  qRound ((x : ℚ) / xScale c + (startBin c : ℚ))

/-- Concrete detection source: a single isolated narrow spike of value 10
(ten times the flat baseline 1) at column 5. -/
def srcSpike : ℤ → ℚ := fun i => if i = 5 then 10 else 1

/-- Concrete detection source for the pass-2 comparison: a width-3 plateau
of value 10 over columns 4-6 on a baseline of 3. -/
def srcC6 : ℤ → ℚ := fun i => if 4 ≤ i ∧ i ≤ 6 then 10 else 3

/- ================================================================= -/
/- Theorems.  General helper lemmas first.                            -/
/- ================================================================= -/

theorem mem_intRangeAux {i : ℤ} : ∀ (n : ℕ) (lo : ℤ),
    i ∈ intRangeAux lo n ↔ lo ≤ i ∧ i < lo + n := by
  intro n
  induction n with
  | zero => intro lo; simp [intRangeAux]
  | succ m ih =>
      intro lo
      simp only [intRangeAux, List.mem_cons, ih (lo + 1)]
      omega

theorem mem_intRange {lo hi i : ℤ} : i ∈ intRange lo hi ↔ lo ≤ i ∧ i ≤ hi := by
  unfold intRange
  rw [mem_intRangeAux]
  omega

theorem intRangeAux_pairwise : ∀ (n : ℕ) (lo : ℤ),
    (intRangeAux lo n).Pairwise (· < ·) := by
  intro n
  induction n with
  | zero => intro lo; simp [intRangeAux]
  | succ m ih =>
      intro lo
      refine List.Pairwise.cons ?_ (ih (lo + 1))
      intro j hj
      have := (mem_intRangeAux m (lo + 1)).mp hj
      omega

theorem intRange_pairwise (lo hi : ℤ) : (intRange lo hi).Pairwise (· < ·) :=
  intRangeAux_pairwise _ _

theorem intRange_eq_cons {lo hi : ℤ} (h : lo ≤ hi) :
    intRange lo hi = lo :: intRange (lo + 1) hi := by
  unfold intRange
  have h1 : (hi + 1 - lo).toNat = (hi + 1 - (lo + 1)).toNat + 1 := by omega
  rw [h1]
  rfl

theorem qfloor_eq_floor (q : ℚ) : qfloor q = ⌊q⌋ := Rat.floor_def.symm

theorem qceil_eq_ceil (q : ℚ) : qceil q = ⌈q⌉ := by
  unfold qceil
  rw [qfloor_eq_floor, Int.floor_neg, neg_neg]

theorem qRound_eq (q : ℚ) : qRound q = if 0 ≤ q then ⌊q + 1/2⌋ else ⌈q - 1/2⌉ := by
  unfold qRound
  split
  · exact qfloor_eq_floor _
  · exact qceil_eq_ceil _

theorem qRound_mono {a b : ℚ} (h : a ≤ b) : qRound a ≤ qRound b := by
  rw [qRound_eq, qRound_eq]
  by_cases ha : 0 ≤ a
  · rw [if_pos ha, if_pos (le_trans ha h)]
    exact Int.floor_le_floor (by linarith)
  · by_cases hb : 0 ≤ b
    · rw [if_neg ha, if_pos hb]
      have h1 : (⌈a - 1/2⌉ : ℤ) ≤ 0 := by
        apply Int.ceil_le.mpr
        push_cast
        linarith
      have h2 : (0 : ℤ) ≤ ⌊b + 1/2⌋ := by
        apply Int.le_floor.mpr
        push_cast
        linarith
      omega
    · rw [if_neg ha, if_neg hb]
      exact Int.ceil_le_ceil (by linarith)

theorem foldl_max_init_le (vs : List ℚ) :
    ∀ v : ℚ, v ≤ vs.foldl (fun acc x => max x acc) v := by
  induction vs with
  | nil => intro v; exact le_refl v
  | cons x xs ih =>
      intro v
      exact le_trans (le_max_right x v) (ih (max x v))

theorem foldl_max_mem_le (vs : List ℚ) :
    ∀ (v x : ℚ), x ∈ vs → x ≤ vs.foldl (fun acc x => max x acc) v := by
  induction vs with
  | nil => intro v x hx; simp at hx
  | cons y ys ih =>
      intro v x hx
      rcases List.mem_cons.mp hx with h | h
      · subst h
        exact le_trans (le_max_left x v) (foldl_max_init_le ys (max x v))
      · exact ih (max y v) x h

theorem foldl_max_mem (vs : List ℚ) :
    ∀ v : ℚ, vs.foldl (fun acc x => max x acc) v ∈ v :: vs := by
  induction vs with
  | nil => intro v; simp
  | cons x xs ih =>
      intro v
      simp only [List.foldl_cons]
      have h := ih (max x v)
      rcases List.mem_cons.mp h with h1 | h1
      · rw [h1]
        rcases max_choice x v with h2 | h2
        · rw [h2]; simp
        · rw [h2]; simp
      · exact List.mem_cons.mpr (Or.inr (List.mem_cons.mpr (Or.inr h1)))

theorem le_qRunMax {l : List ℚ} {x : ℚ} (hx : x ∈ l) : x ≤ qRunMax l := by
  cases l with
  | nil => simp at hx
  | cons v vs =>
      rcases List.mem_cons.mp hx with h | h
      · subst h; exact foldl_max_init_le vs x
      · exact foldl_max_mem_le vs v x h

theorem qRunMax_mem {l : List ℚ} (hl : l ≠ []) : qRunMax l ∈ l := by
  cases l with
  | nil => exact absurd rfl hl
  | cons v vs => exact foldl_max_mem vs v

theorem qRunMax_append_singleton (l : List ℚ) (hl : l ≠ []) (a : ℚ) :
    qRunMax (l ++ [a]) = max a (qRunMax l) := by
  cases l with
  | nil => exact absurd rfl hl
  | cons v vs => simp [qRunMax, List.foldl_append]

theorem sum_le_length_mul_runMax (l : List ℚ) : l.sum ≤ (l.length : ℚ) * qRunMax l := by
  have h := List.sum_le_card_nsmul l (qRunMax l) (fun x hx => le_qRunMax hx)
  simpa [nsmul_eq_mul] using h

theorem length_mul_le_sum (l : List ℚ) (m : ℚ) (h : ∀ x ∈ l, m ≤ x) :
    (l.length : ℚ) * m ≤ l.sum := by
  have h2 := List.card_nsmul_le_sum l m h
  simpa [nsmul_eq_mul] using h2

theorem aggStep_flush {P Mn : Bool} {x : ℤ} {v viir : ℚ} {isLast : Bool}
    {s : AggState} (hfirst : s.first = false)
    (hcond : x ≠ s.xprev ∨ isLast = true) :
    aggStep P Mn x v viir isLast s =
      { s with
        bufs := flushBufs P Mn s.bufs s.xprev s.vmax s.vmaxIIR s.vsum s.vsumIIR s.count,
        vmax := v, vmaxIIR := viir, vsum := v, vsumIIR := viir, count := 1,
        xprev := x, first := false,
        written := s.xprev :: s.written } := by
  unfold aggStep
  simp only [hfirst, Bool.false_eq_true, if_false]
  rw [if_pos hcond]

theorem aggStep_accum {P Mn : Bool} {x : ℤ} {v viir : ℚ}
    {s : AggState} (hfirst : s.first = false) (heq : x = s.xprev) :
    aggStep P Mn x v viir false s =
      { s with
        vmax := max v s.vmax, vmaxIIR := max viir s.vmaxIIR,
        vsum := s.vsum + v, vsumIIR := s.vsumIIR + viir,
        count := s.count + 1, first := false } := by
  unfold aggStep
  simp only [hfirst, Bool.false_eq_true, if_false]
  rw [if_neg (by simp [heq])]
  simp

theorem aggStep_firstInit {P Mn : Bool} {x : ℤ} {v viir : ℚ}
    {s : AggState} (hfirst : s.first = true) (heq : x = s.xprev) :
    aggStep P Mn x v viir false s =
      { s with
        vmax := v, vmaxIIR := viir, vsum := v, vsumIIR := viir,
        count := 1, first := false } := by
  unfold aggStep
  simp only [hfirst, if_true]
  rw [if_neg (by simp [heq]), if_neg (by simp)]

theorem aggStep_flushFirst {P Mn : Bool} {x : ℤ} {v viir : ℚ} {isLast : Bool}
    {s : AggState} (hfirst : s.first = true)
    (hcond : x ≠ s.xprev ∨ isLast = true) :
    aggStep P Mn x v viir isLast s =
      { s with
        bufs := flushBufs P Mn s.bufs s.xprev v viir v viir 1,
        vmax := v, vmaxIIR := viir, vsum := v, vsumIIR := viir, count := 1,
        xprev := x, first := false,
        written := s.xprev :: s.written } := by
  unfold aggStep
  simp only [hfirst, if_true]
  rw [if_pos hcond]

theorem flushBufs_flags {P Mn : Bool} {b : AggBufs} {k : ℤ}
    {vmax vmaxIIR vsum vsumIIR : ℚ} {count : ℤ} :
    (flushBufs P Mn b k vmax vmaxIIR vsum vsumIIR count).maxHoldValid = b.maxHoldValid ∧
    (flushBufs P Mn b k vmax vmaxIIR vsum vsumIIR count).minHoldValid = b.minHoldValid := by
  unfold flushBufs
  exact ⟨rfl, rfl⟩

theorem aggStep_cases (P Mn : Bool) (x : ℤ) (v viir : ℚ) (isLast : Bool)
    (s : AggState) :
    aggStep P Mn x v viir isLast s =
      { s with
        bufs := flushBufs P Mn s.bufs s.xprev s.vmax s.vmaxIIR s.vsum s.vsumIIR s.count,
        vmax := v, vmaxIIR := viir, vsum := v, vsumIIR := viir, count := 1,
        xprev := x, first := false,
        written := s.xprev :: s.written } ∨
    aggStep P Mn x v viir isLast s =
      { s with
        bufs := flushBufs P Mn s.bufs s.xprev v viir v viir 1,
        vmax := v, vmaxIIR := viir, vsum := v, vsumIIR := viir, count := 1,
        xprev := x, first := false,
        written := s.xprev :: s.written } ∨
    aggStep P Mn x v viir isLast s =
      { s with
        vmax := max v s.vmax, vmaxIIR := max viir s.vmaxIIR,
        vsum := s.vsum + v, vsumIIR := s.vsumIIR + viir,
        count := s.count + 1, first := false } ∨
    aggStep P Mn x v viir isLast s =
      { s with
        vmax := v, vmaxIIR := viir, vsum := v, vsumIIR := viir,
        count := 1, first := false } := by
  by_cases hc : x ≠ s.xprev ∨ isLast = true
  · cases hf : s.first
    · exact Or.inl (aggStep_flush hf hc)
    · exact Or.inr (Or.inl (aggStep_flushFirst hf hc))
  · push_neg at hc
    have hx : x = s.xprev := by
      by_contra hne
      exact hne (by simpa using hc.1)
    have hl : isLast = false := by
      have := hc.2
      simp only [ne_eq] at this
      exact Bool.not_eq_true isLast |>.mp this
    subst hl
    cases hf : s.first
    · exact Or.inr (Or.inr (Or.inl (aggStep_accum hf hx)))
    · exact Or.inr (Or.inr (Or.inr (aggStep_firstInit hf hx)))

theorem aggStep_flags {P Mn : Bool} {x : ℤ} {v viir : ℚ} {isLast : Bool} {s : AggState} :
    (aggStep P Mn x v viir isLast s).bufs.maxHoldValid = s.bufs.maxHoldValid ∧
    (aggStep P Mn x v viir isLast s).bufs.minHoldValid = s.bufs.minHoldValid := by
  rcases aggStep_cases P Mn x v viir isLast s with h | h | h | h <;> rw [h] <;>
    first
      | exact flushBufs_flags
      | exact ⟨rfl, rfl⟩

theorem aggLoop_flags {P Mn : Bool} {xOfF : ℤ → ℤ} {raw iir : ℤ → ℚ} :
    ∀ (L : List ℤ) (s : AggState),
    (aggLoop P Mn xOfF raw iir L s).bufs.maxHoldValid = s.bufs.maxHoldValid ∧
    (aggLoop P Mn xOfF raw iir L s).bufs.minHoldValid = s.bufs.minHoldValid := by
  intro L
  induction L with
  | nil => intro s; exact ⟨rfl, rfl⟩
  | cons i L2 ih =>
      intro s
      cases L2 with
      | nil => exact aggStep_flags
      | cons j rest =>
          have h1 := ih (aggStep P Mn (xOfF i) (raw i) (iir i) false s)
          have h2 := @aggStep_flags P Mn (xOfF i) (raw i) (iir i) false s
          exact ⟨h1.1.trans h2.1, h1.2.trans h2.2⟩

theorem flushBufs_untouched {P Mn : Bool} {b : AggBufs} {k : ℤ}
    {vmax vmaxIIR vsum vsumIIR : ℚ} {count : ℤ} {t : ℤ} (h : k ≠ t) :
    bufsAgreeAt (flushBufs P Mn b k vmax vmaxIIR vsum vsumIIR count) b t := by
  unfold bufsAgreeAt flushBufs updFn
  simp only
  rw [if_neg (Ne.symm h), if_neg (Ne.symm h), if_neg (Ne.symm h),
    if_neg (Ne.symm h), if_neg (Ne.symm h), if_neg (Ne.symm h)]
  exact ⟨rfl, rfl, rfl, rfl, rfl, rfl⟩

theorem aggStep_untouched {P Mn : Bool} {x : ℤ} {v viir : ℚ} {isLast : Bool}
    {s : AggState} {t : ℤ} (hx : s.xprev ≠ t) :
    bufsAgreeAt (aggStep P Mn x v viir isLast s).bufs s.bufs t ∧
    ((aggStep P Mn x v viir isLast s).xprev = x ∨
      (aggStep P Mn x v viir isLast s).xprev = s.xprev) := by
  rcases aggStep_cases P Mn x v viir isLast s with h | h | h | h <;> rw [h] <;>
    first
      | exact ⟨flushBufs_untouched hx, Or.inl rfl⟩
      | exact ⟨⟨rfl, rfl, rfl, rfl, rfl, rfl⟩, Or.inr rfl⟩

theorem bufsAgreeAt_trans {b1 b2 b3 : AggBufs} {t : ℤ}
    (h1 : bufsAgreeAt b1 b2 t) (h2 : bufsAgreeAt b2 b3 t) : bufsAgreeAt b1 b3 t :=
  ⟨h1.1.trans h2.1, h1.2.1.trans h2.2.1, h1.2.2.1.trans h2.2.2.1,
   h1.2.2.2.1.trans h2.2.2.2.1, h1.2.2.2.2.1.trans h2.2.2.2.2.1,
   h1.2.2.2.2.2.trans h2.2.2.2.2.2⟩

theorem aggLoop_untouched {P Mn : Bool} {xOfF : ℤ → ℤ} {raw iir : ℤ → ℚ} :
    ∀ (L : List ℤ) (s : AggState) (t : ℤ), s.xprev ≠ t → (∀ i ∈ L, xOfF i ≠ t) →
    bufsAgreeAt (aggLoop P Mn xOfF raw iir L s).bufs s.bufs t := by
  intro L
  induction L with
  | nil => intro s t _ _; exact ⟨rfl, rfl, rfl, rfl, rfl, rfl⟩
  | cons i L2 ih =>
      intro s t hx hL
      cases L2 with
      | nil => exact (aggStep_untouched hx).1
      | cons j rest =>
          have hstep := @aggStep_untouched P Mn (xOfF i) (raw i) (iir i) false s t hx
          have hx2 : (aggStep P Mn (xOfF i) (raw i) (iir i) false s).xprev ≠ t := by
            rcases hstep.2 with h | h
            · rw [h]; exact hL i (List.mem_cons_self i _)
            · rw [h]; exact hx
          have hrest : ∀ k ∈ j :: rest, xOfF k ≠ t := by
            intro k hk
            exact hL k (List.mem_cons_of_mem i hk)
          exact bufsAgreeAt_trans (ih _ t hx2 hrest) hstep.1

theorem aggStep_written_mem {P Mn : Bool} {x : ℤ} {v viir : ℚ} {isLast : Bool}
    {s : AggState} {t : ℤ} (h : t ∈ s.written) :
    t ∈ (aggStep P Mn x v viir isLast s).written := by
  rcases aggStep_cases P Mn x v viir isLast s with hc | hc | hc | hc <;> rw [hc] <;>
    first
      | exact List.mem_cons_of_mem _ h
      | exact h

theorem aggLoop_written_mem {P Mn : Bool} {xOfF : ℤ → ℤ} {raw iir : ℤ → ℚ} :
    ∀ (L : List ℤ) (s : AggState) (t : ℤ), t ∈ s.written →
    t ∈ (aggLoop P Mn xOfF raw iir L s).written := by
  intro L
  induction L with
  | nil => intro s t h; exact h
  | cons i L2 ih =>
      intro s t h
      cases L2 with
      | nil => exact aggStep_written_mem h
      | cons j rest => exact ih _ t (aggStep_written_mem h)

theorem flushedAt_of_agree {P Mn : Bool} {b0 b b2 : AggBufs} {raw iir : ℤ → ℚ}
    {M : List ℤ} {t : ℤ} (hag : bufsAgreeAt b2 b t)
    (h : flushedAt P Mn b0 b raw iir M t) : flushedAt P Mn b0 b2 raw iir M t := by
  obtain ⟨a1, a2, a3, a4, a5, a6⟩ := hag
  obtain ⟨f1, f2, f3, f4, f5, f6⟩ := h
  exact ⟨a1.trans f1, a3.trans f2, a2.trans f3, a4.trans f4, a5.trans f5, a6.trans f6⟩

theorem flushBufs_flushedAt {P Mn : Bool} {b : AggBufs} {t : ℤ} {raw iir : ℤ → ℚ}
    {M : List ℤ} :
    flushedAt P Mn b
      (flushBufs P Mn b t (qRunMax (M.map raw)) (qRunMax (M.map iir))
        ((M.map raw).sum) ((M.map iir).sum) ((M.length : ℤ))) raw iir M t := by
  unfold flushedAt flushBufs refVal updFn
  simp only [if_pos rfl, Int.cast_natCast]
  refine ⟨rfl, rfl, rfl, rfl, rfl, rfl⟩

theorem aggLoop_run {P Mn : Bool} {xOfF : ℤ → ℤ} {raw iir : ℤ → ℚ} :
    ∀ (L : List ℤ) (s : AggState) (t : ℤ) (M0 : List ℤ),
    s.first = false → s.xprev = t → M0 ≠ [] →
    s.vmax = qRunMax (M0.map raw) → s.vmaxIIR = qRunMax (M0.map iir) →
    s.vsum = (M0.map raw).sum → s.vsumIIR = (M0.map iir).sum →
    s.count = (M0.length : ℤ) →
    List.Pairwise (fun a b => xOfF a ≤ xOfF b) L →
    (∀ i ∈ L, t ≤ xOfF i) →
    (∃ i ∈ L, xOfF i ≠ t) →
    flushedAt P Mn s.bufs (aggLoop P Mn xOfF raw iir L s).bufs raw iir
      (M0 ++ L.takeWhile (fun i => xOfF i == t)) t ∧
    t ∈ (aggLoop P Mn xOfF raw iir L s).written := by
  intro L
  induction L with
  | nil =>
      intro s t M0 _ _ _ _ _ _ _ _ _ _ hex
      simp at hex
  | cons i L2 ih =>
      intro s t M0 hfirst hxprev hM0 h1 h2 h3 h4 h5 hpw hge hex
      have hMne : M0.map raw ≠ [] := by
        intro hcon
        exact hM0 (List.map_eq_nil_iff.mp hcon)
      have hMne2 : M0.map iir ≠ [] := by
        intro hcon
        exact hM0 (List.map_eq_nil_iff.mp hcon)
      cases L2 with
      | nil =>
          have hne : xOfF i ≠ t := by
            rcases hex with ⟨k, hk, hkne⟩
            have hki : k = i := List.mem_singleton.mp hk
            rw [hki] at hkne
            exact hkne
          have hcond : xOfF i ≠ s.xprev ∨ (true : Bool) = true := Or.inr rfl
          have hloop : aggLoop P Mn xOfF raw iir [i] s =
              aggStep P Mn (xOfF i) (raw i) (iir i) true s := rfl
          rw [hloop, aggStep_flush hfirst hcond]
          have htw : List.takeWhile (fun j => xOfF j == t) [i] = [] := by
            simp [List.takeWhile_cons, hne]
          constructor
          · rw [htw, List.append_nil]
            show flushedAt P Mn s.bufs
              (flushBufs P Mn s.bufs s.xprev s.vmax s.vmaxIIR s.vsum s.vsumIIR s.count)
              raw iir M0 t
            rw [hxprev, h1, h2, h3, h4, h5]
            exact flushBufs_flushedAt
          · show t ∈ s.xprev :: s.written
            rw [hxprev]
            exact List.mem_cons_self t _
      | cons j rest =>
          have hloop : aggLoop P Mn xOfF raw iir (i :: j :: rest) s =
              aggLoop P Mn xOfF raw iir (j :: rest)
                (aggStep P Mn (xOfF i) (raw i) (iir i) false s) := rfl
          by_cases hci : xOfF i = t
          · -- same column: accumulate and recurse with the grown run
            have heq : xOfF i = s.xprev := hci.trans hxprev.symm
            rw [hloop, aggStep_accum hfirst heq]
            have hpw2 : List.Pairwise (fun a b => xOfF a ≤ xOfF b) (j :: rest) :=
              (List.pairwise_cons.mp hpw).2
            have hge2 : ∀ k ∈ j :: rest, t ≤ xOfF k := by
              intro k hk
              exact hge k (List.mem_cons_of_mem i hk)
            have hex2 : ∃ k ∈ j :: rest, xOfF k ≠ t := by
              rcases hex with ⟨k, hk, hkne⟩
              rcases List.mem_cons.mp hk with hh | hh
              · rw [hh] at hkne
                exact absurd hci hkne
              · exact ⟨k, hh, hkne⟩
            have hres := ih
              { s with
                vmax := max (raw i) s.vmax, vmaxIIR := max (iir i) s.vmaxIIR,
                vsum := s.vsum + raw i, vsumIIR := s.vsumIIR + iir i,
                count := s.count + 1, first := false }
              t (M0 ++ [i]) rfl hxprev (by simp)
              (by show max (raw i) s.vmax = qRunMax ((M0 ++ [i]).map raw)
                  rw [h1, List.map_append, List.map_singleton,
                    qRunMax_append_singleton _ hMne])
              (by show max (iir i) s.vmaxIIR = qRunMax ((M0 ++ [i]).map iir)
                  rw [h2, List.map_append, List.map_singleton,
                    qRunMax_append_singleton _ hMne2])
              (by show s.vsum + raw i = ((M0 ++ [i]).map raw).sum
                  rw [h3, List.map_append, List.map_singleton, List.sum_append,
                    List.sum_singleton])
              (by show s.vsumIIR + iir i = ((M0 ++ [i]).map iir).sum
                  rw [h4, List.map_append, List.map_singleton, List.sum_append,
                    List.sum_singleton])
              (by show s.count + 1 = ((M0 ++ [i]).length : ℤ)
                  rw [h5, List.length_append, List.length_singleton]
                  push_cast
                  ring)
              hpw2 hge2 hex2
            have htw : List.takeWhile (fun k => xOfF k == t) (i :: j :: rest) =
                i :: List.takeWhile (fun k => xOfF k == t) (j :: rest) := by
              simp [List.takeWhile_cons, hci]
            rw [htw]
            have happ : M0 ++ i :: List.takeWhile (fun k => xOfF k == t) (j :: rest) =
                (M0 ++ [i]) ++ List.takeWhile (fun k => xOfF k == t) (j :: rest) := by
              simp
            rw [happ]
            exact hres
          · -- new column: flush the finished run; the rest never touches t
            have hcond : xOfF i ≠ s.xprev ∨ (false : Bool) = true := by
              left
              rw [hxprev]
              exact hci
            rw [hloop, aggStep_flush hfirst hcond]
            have hhead : ∀ k ∈ j :: rest, xOfF i ≤ xOfF k := by
              intro k hk
              exact (List.pairwise_cons.mp hpw).1 k hk
            have hlt : t < xOfF i :=
              lt_of_le_of_ne (hge i (List.mem_cons_self i _)) (Ne.symm hci)
            have hall : ∀ k ∈ j :: rest, xOfF k ≠ t := by
              intro k hk
              have := hhead k hk
              omega
            have huntouched := @aggLoop_untouched P Mn xOfF raw iir (j :: rest)
              { s with
                bufs := flushBufs P Mn s.bufs s.xprev s.vmax s.vmaxIIR s.vsum s.vsumIIR s.count,
                vmax := raw i, vmaxIIR := iir i, vsum := raw i, vsumIIR := iir i, count := 1,
                xprev := xOfF i, first := false,
                written := s.xprev :: s.written }
              t hci hall
            have htw : List.takeWhile (fun k => xOfF k == t) (i :: j :: rest) = [] := by
              simp [List.takeWhile_cons, hci]
            constructor
            · rw [htw, List.append_nil]
              refine flushedAt_of_agree huntouched ?_
              show flushedAt P Mn s.bufs
                (flushBufs P Mn s.bufs s.xprev s.vmax s.vmaxIIR s.vsum s.vsumIIR s.count)
                raw iir M0 t
              rw [hxprev, h1, h2, h3, h4, h5]
              exact flushBufs_flushedAt
            · refine aggLoop_written_mem _ _ _ ?_
              show t ∈ s.xprev :: s.written
              rw [hxprev]
              exact List.mem_cons_self t _

theorem filter_eq_takeWhile_of_mono {xOfF : ℤ → ℤ} {t : ℤ} :
    ∀ (L : List ℤ), List.Pairwise (fun a b => xOfF a ≤ xOfF b) L →
    (∀ i ∈ L, t ≤ xOfF i) →
    L.filter (fun i => xOfF i == t) = L.takeWhile (fun i => xOfF i == t) := by
  intro L
  induction L with
  | nil => intro _ _; rfl
  | cons i L2 ih =>
      intro hpw hge
      by_cases hci : xOfF i = t
      · rw [List.filter_cons_of_pos (by simp [hci]),
          List.takeWhile_cons_of_pos (by simp [hci])]
        rw [ih (List.pairwise_cons.mp hpw).2
          (fun k hk => hge k (List.mem_cons_of_mem i hk))]
      · rw [List.filter_cons_of_neg (by simp [hci]),
          List.takeWhile_cons_of_neg (by simp [hci])]
        have hlt : t < xOfF i :=
          lt_of_le_of_ne (hge i (List.mem_cons_self i _)) (Ne.symm hci)
        apply List.filter_eq_nil_iff.mpr
        intro k hk
        have := (List.pairwise_cons.mp hpw).1 k hk
        simp only [beq_iff_eq]
        omega

theorem aggLoop_approach {P Mn : Bool} {xOfF : ℤ → ℤ} {raw iir : ℤ → ℚ} :
    ∀ (L : List ℤ) (s : AggState) (t : ℤ),
    s.first = false → s.xprev < t →
    List.Pairwise (fun a b => xOfF a ≤ xOfF b) L →
    (∃ i ∈ L, xOfF i = t) → (∃ i ∈ L, t < xOfF i) →
    flushedAt P Mn s.bufs (aggLoop P Mn xOfF raw iir L s).bufs raw iir
      (L.filter (fun i => xOfF i == t)) t ∧
    t ∈ (aggLoop P Mn xOfF raw iir L s).written := by
  intro L
  induction L with
  | nil =>
      intro s t _ _ _ hex _
      simp at hex
  | cons i L2 ih =>
      intro s t hfirst hxprev hpw heq hgt
      have hpw2 : List.Pairwise (fun a b => xOfF a ≤ xOfF b) L2 :=
        (List.pairwise_cons.mp hpw).2
      have hhead : ∀ k ∈ L2, xOfF i ≤ xOfF k := (List.pairwise_cons.mp hpw).1
      -- the head bin cannot lie beyond column t: some bin maps to t
      have hile : xOfF i ≤ t := by
        rcases heq with ⟨k, hk, hkt⟩
        rcases List.mem_cons.mp hk with hh | hh
        · rw [← hh]; exact le_of_eq hkt
        · have := hhead k hh
          omega
      -- a bin strictly beyond t exists, and it is not the head
      have hgt2 : ∃ k ∈ L2, t < xOfF k := by
        rcases hgt with ⟨k, hk, hkt⟩
        rcases List.mem_cons.mp hk with hh | hh
        · rw [hh] at hkt
          exact absurd hkt (not_lt.mpr hile)
        · exact ⟨k, hh, hkt⟩
      cases L2 with
      | nil =>
          rcases hgt2 with ⟨k, hk, _⟩
          simp at hk
      | cons j rest =>
          have hloop : aggLoop P Mn xOfF raw iir (i :: j :: rest) s =
              aggLoop P Mn xOfF raw iir (j :: rest)
                (aggStep P Mn (xOfF i) (raw i) (iir i) false s) := rfl
          by_cases hci : xOfF i = t
          · -- the run of t starts at the head: flush the previous run and
            -- continue with the run lemma
            have hcond : xOfF i ≠ s.xprev ∨ (false : Bool) = true := by
              left
              omega
            rw [hloop, aggStep_flush hfirst hcond]
            have hge2 : ∀ k ∈ j :: rest, t ≤ xOfF k := by
              intro k hk
              have := hhead k hk
              omega
            have hex2 : ∃ k ∈ j :: rest, xOfF k ≠ t := by
              rcases hgt2 with ⟨k, hk, hkt⟩
              exact ⟨k, hk, by omega⟩
            have hrun := @aggLoop_run P Mn xOfF raw iir (j :: rest)
              { s with
                bufs := flushBufs P Mn s.bufs s.xprev s.vmax s.vmaxIIR s.vsum s.vsumIIR s.count,
                vmax := raw i, vmaxIIR := iir i, vsum := raw i, vsumIIR := iir i, count := 1,
                xprev := xOfF i, first := false,
                written := s.xprev :: s.written }
              t [i] rfl hci (by simp)
              (by show raw i = qRunMax ([i].map raw); simp [qRunMax])
              (by show iir i = qRunMax ([i].map iir); simp [qRunMax])
              (by show raw i = ([i].map raw).sum; simp)
              (by show iir i = ([i].map iir).sum; simp)
              (by show (1 : ℤ) = (([i] : List ℤ).length : ℤ); simp)
              hpw2 hge2 hex2
            have hfilter : (i :: j :: rest).filter (fun k => xOfF k == t) =
                i :: (j :: rest).takeWhile (fun k => xOfF k == t) := by
              rw [List.filter_cons_of_pos (by simp [hci]),
                filter_eq_takeWhile_of_mono _ hpw2 hge2]
            rw [hfilter]
            constructor
            · -- transfer the base buffers of the run conclusion back to s.bufs:
              -- the flush before the run wrote only at column s.xprev < t
              have hbase := hrun.1
              rw [List.singleton_append] at hbase
              obtain ⟨f1, f2, f3, f4, f5, f6⟩ := hbase
              have hagbase : bufsAgreeAt
                  (flushBufs P Mn s.bufs s.xprev s.vmax s.vmaxIIR s.vsum s.vsumIIR s.count)
                  s.bufs t := flushBufs_untouched (by omega)
              obtain ⟨a1, a2, a3, a4, a5, a6⟩ := hagbase
              have hfl := @flushBufs_flags P Mn s.bufs s.xprev s.vmax s.vmaxIIR s.vsum s.vsumIIR s.count
              refine ⟨f1, f2, f3, f4, ?_, ?_⟩
              · rw [f5, hfl.1, a5]
              · rw [f6, hfl.2, a6]
            · exact hrun.2
          · -- still approaching: the head bin's column is below t
            have hlt : xOfF i < t := lt_of_le_of_ne hile hci
            have heq2 : ∃ k ∈ j :: rest, xOfF k = t := by
              rcases heq with ⟨k, hk, hkt⟩
              rcases List.mem_cons.mp hk with hh | hh
              · rw [hh] at hkt
                exact absurd hkt hci
              · exact ⟨k, hh, hkt⟩
            have hfilter : (i :: j :: rest).filter (fun k => xOfF k == t) =
                (j :: rest).filter (fun k => xOfF k == t) := by
              rw [List.filter_cons_of_neg (by simp [hci])]
            by_cases hrun0 : xOfF i = s.xprev
            · -- same column as the pending run: accumulate, state keeps approaching
              rw [hloop, aggStep_accum hfirst hrun0, hfilter]
              exact ih _ t rfl (by show s.xprev < t; omega) hpw2 heq2 hgt2
            · -- new pending run: flush at a column below t, keep approaching
              rw [hloop, aggStep_flush hfirst (Or.inl hrun0)]
              have hres := ih
                { s with
                  bufs := flushBufs P Mn s.bufs s.xprev s.vmax s.vmaxIIR s.vsum s.vsumIIR s.count,
                  vmax := raw i, vmaxIIR := iir i, vsum := raw i, vsumIIR := iir i, count := 1,
                  xprev := xOfF i, first := false,
                  written := s.xprev :: s.written }
                t rfl (by show xOfF i < t; omega) hpw2 heq2 hgt2
              rw [hfilter]
              constructor
              · refine flushedAt_of_agree ⟨rfl, rfl, rfl, rfl, rfl, rfl⟩ ?_
                have hagbase : bufsAgreeAt
                    (flushBufs P Mn s.bufs s.xprev s.vmax s.vmaxIIR s.vsum s.vsumIIR s.count)
                    s.bufs t := flushBufs_untouched (by omega)
                obtain ⟨f1, f2, f3, f4, f5, f6⟩ := hres.1
                obtain ⟨a1, a2, a3, a4, a5, a6⟩ := hagbase
                have hfl := @flushBufs_flags P Mn s.bufs s.xprev s.vmax s.vmaxIIR s.vsum s.vsumIIR s.count
                refine ⟨f1, f2, f3, f4, ?_, ?_⟩
                · rw [f5, hfl.1, a5]
                · rw [f6, hfl.2, a6]
              · exact hres.2

theorem binList_cols_pairwise (c : DrawCfg) (hsc : 0 ≤ xScale c) :
    List.Pairwise (fun a b => xOf c a ≤ xOf c b) (binList c) := by
  refine (intRange_pairwise _ _).imp ?_
  intro a b hab
  apply qRound_mono
  unfold xD
  apply mul_le_mul_of_nonneg_right _ hsc
  have : (a - startBin c : ℤ) ≤ (b - startBin c : ℤ) := by omega
  exact_mod_cast this

theorem agg_master {c : DrawCfg} {mode : PlotMode} {raw iir : ℤ → ℚ} {b : AggBufs}
    {t : ℤ} (hsc : 0 ≤ xScale c) (hlo : xmin c ≤ t) (hhi : t < xmax c)
    (hmap : ∃ i ∈ binList c, xOf c i = t) :
    (binList c).filter (fun i => xOf c i == t) ≠ [] ∧
    flushedAt (peakIsAverage mode) (minIsAverage mode) b
      (aggregateOversampled c mode raw iir b).bufs raw iir
      ((binList c).filter (fun i => xOf c i == t)) t ∧
    t ∈ (aggregateOversampled c mode raw iir b).written ∧
    (aggregateOversampled c mode raw iir b).bufs.maxHoldValid = true ∧
    (aggregateOversampled c mode raw iir b).bufs.minHoldValid = true := by
  obtain ⟨i0, hi0, hi0t⟩ := hmap
  have hbounds := mem_intRange.mp hi0
  have hminmax : minbin c ≤ maxbin c := by omega
  have hxmaxle : xmax c ≤ xOf c (maxbin c) := min_le_left _ _
  have hxm : xOf c (minbin c) = xmin c := rfl
  have hmb : maxbin c ∈ binList c := mem_intRange.mpr ⟨hminmax, le_refl _⟩
  have hpwAll : List.Pairwise (fun a b => xOf c a ≤ xOf c b) (binList c) :=
    binList_cols_pairwise c hsc
  have hcons : binList c = minbin c :: intRange (minbin c + 1) (maxbin c) :=
    intRange_eq_cons hminmax
  have hfilmem : i0 ∈ (binList c).filter (fun i => xOf c i == t) :=
    List.mem_filter.mpr ⟨hi0, by simp [hi0t]⟩
  have hcore : flushedAt (peakIsAverage mode) (minIsAverage mode) b
      (aggLoop (peakIsAverage mode) (minIsAverage mode) (xOf c) raw iir (binList c)
        (initAggState b (xmin c))).bufs raw iir
      ((binList c).filter (fun i => xOf c i == t)) t ∧
      t ∈ (aggLoop (peakIsAverage mode) (minIsAverage mode) (xOf c) raw iir (binList c)
        (initAggState b (xmin c))).written := by
    rw [hcons] at hpwAll hmb hi0 ⊢
    rcases hTT : intRange (minbin c + 1) (maxbin c) with _ | ⟨j, rest⟩
    · -- a one-bin list cannot reach a column strictly below xmax
      rw [hTT] at hmb
      have hone : maxbin c = minbin c := List.mem_singleton.mp hmb
      rw [hone] at hxmaxle
      omega
    · rw [hTT] at hpwAll hmb hi0
      have hloop1 : aggLoop (peakIsAverage mode) (minIsAverage mode) (xOf c) raw iir
          (minbin c :: j :: rest) (initAggState b (xmin c)) =
          aggLoop (peakIsAverage mode) (minIsAverage mode) (xOf c) raw iir (j :: rest)
            (aggStep (peakIsAverage mode) (minIsAverage mode) (xOf c (minbin c))
              (raw (minbin c)) (iir (minbin c)) false (initAggState b (xmin c))) := rfl
      rw [hloop1, aggStep_firstInit (x := xOf c (minbin c))
        (s := initAggState b (xmin c)) rfl rfl]
      have hpw2 : List.Pairwise (fun a b => xOf c a ≤ xOf c b) (j :: rest) :=
        (List.pairwise_cons.mp hpwAll).2
      have hhead : ∀ k ∈ j :: rest, xOf c (minbin c) ≤ xOf c k :=
        (List.pairwise_cons.mp hpwAll).1
      by_cases hcm : xOf c (minbin c) = t
      · -- the target run starts at the very first bin
        have hge2 : ∀ k ∈ j :: rest, t ≤ xOf c k := by
          intro k hk
          have := hhead k hk
          omega
        have hmbne : maxbin c ≠ minbin c := by
          intro hcon
          rw [hcon] at hxmaxle
          omega
        have hmb2 : maxbin c ∈ j :: rest := by
          rcases List.mem_cons.mp hmb with hh | hh
          · exact absurd hh hmbne
          · exact hh
        have hex2 : ∃ k ∈ j :: rest, xOf c k ≠ t := by
          refine ⟨maxbin c, hmb2, ?_⟩
          omega
        have hrun := @aggLoop_run (peakIsAverage mode) (minIsAverage mode) (xOf c) raw iir
          (j :: rest)
          { initAggState b (xmin c) with
            vmax := raw (minbin c), vmaxIIR := iir (minbin c),
            vsum := raw (minbin c), vsumIIR := iir (minbin c),
            count := 1, first := false }
          t [minbin c] rfl hcm (by simp)
          (by show raw (minbin c) = qRunMax ([minbin c].map raw); simp [qRunMax])
          (by show iir (minbin c) = qRunMax ([minbin c].map iir); simp [qRunMax])
          (by show raw (minbin c) = ([minbin c].map raw).sum; simp)
          (by show iir (minbin c) = ([minbin c].map iir).sum; simp)
          (by show (1 : ℤ) = (([minbin c] : List ℤ).length : ℤ); simp)
          hpw2 hge2 hex2
        have hfilter : (minbin c :: j :: rest).filter (fun k => xOf c k == t) =
            minbin c :: (j :: rest).takeWhile (fun k => xOf c k == t) := by
          rw [List.filter_cons_of_pos (by simp [hcm]),
            filter_eq_takeWhile_of_mono _ hpw2 hge2]
        rw [hfilter]
        constructor
        · have hbase := hrun.1
          rw [List.singleton_append] at hbase
          exact hbase
        · exact hrun.2
      · -- the first bin maps strictly below the target column
        have hlt : xOf c (minbin c) < t := by omega
        have hne0 : i0 ≠ minbin c := by
          intro hcon
          rw [hcon] at hi0t
          omega
        have hi02 : i0 ∈ j :: rest := by
          rcases List.mem_cons.mp hi0 with hh | hh
          · exact absurd hh hne0
          · exact hh
        have hmbne : maxbin c ≠ minbin c := by
          intro hcon
          rw [hcon] at hxmaxle
          omega
        have hmb2 : maxbin c ∈ j :: rest := by
          rcases List.mem_cons.mp hmb with hh | hh
          · exact absurd hh hmbne
          · exact hh
        have happ := @aggLoop_approach (peakIsAverage mode) (minIsAverage mode) (xOf c) raw iir
          (j :: rest)
          { initAggState b (xmin c) with
            vmax := raw (minbin c), vmaxIIR := iir (minbin c),
            vsum := raw (minbin c), vsumIIR := iir (minbin c),
            count := 1, first := false }
          t rfl hlt hpw2 ⟨i0, hi02, hi0t⟩ ⟨maxbin c, hmb2, by omega⟩
        have hfilter : (minbin c :: j :: rest).filter (fun k => xOf c k == t) =
            (j :: rest).filter (fun k => xOf c k == t) := by
          rw [List.filter_cons_of_neg (by simp [hcm])]
        rw [hfilter]
        exact happ
  refine ⟨List.ne_nil_of_mem hfilmem, ?_, ?_, rfl, rfl⟩
  · exact flushedAt_of_agree ⟨rfl, rfl, rfl, rfl, rfl, rfl⟩ hcore.1
  · exact hcore.2

theorem map_ne_nil {M : List ℤ} {f : ℤ → ℚ} (hM : M ≠ []) : M.map f ≠ [] := by
  intro hcon
  exact hM (List.map_eq_nil_iff.mp hcon)

theorem fmin_le_mapRunMax {M : List ℤ} {f : ℤ → ℚ} (hM : M ≠ [])
    (h : ∀ i ∈ M, fminDraw ≤ f i) : fminDraw ≤ qRunMax (M.map f) := by
  obtain hm := qRunMax_mem (map_ne_nil (f := f) hM)
  obtain ⟨i, hi, hie⟩ := List.mem_map.mp hm
  rw [← hie]
  exact h i hi

theorem fmin_le_mapAvg {M : List ℤ} {f : ℤ → ℚ} (hM : M ≠ [])
    (h : ∀ i ∈ M, fminDraw ≤ f i) : fminDraw ≤ (M.map f).sum / (M.length : ℚ) := by
  have hlen : 0 < (M.length : ℚ) := by
    have : 0 < M.length := List.length_pos.mpr hM
    exact_mod_cast this
  rw [le_div_iff hlen]
  have h2 : ∀ x ∈ M.map f, fminDraw ≤ x := by
    intro x hx
    obtain ⟨i, hi, hie⟩ := List.mem_map.mp hx
    rw [← hie]
    exact h i hi
  have h3 := length_mul_le_sum (M.map f) fminDraw h2
  rw [List.length_map] at h3
  linarith

theorem mapAvg_le_mapRunMax {M : List ℤ} {f : ℤ → ℚ} (hM : M ≠ []) :
    (M.map f).sum / (M.length : ℚ) ≤ qRunMax (M.map f) := by
  have hlen : 0 < (M.length : ℚ) := by
    have : 0 < M.length := List.length_pos.mpr hM
    exact_mod_cast this
  rw [div_le_iff hlen]
  have h3 := sum_le_length_mul_runMax (M.map f)
  rw [List.length_map] at h3
  linarith

theorem refVal_no_floor {useAvg : Bool} {iir : ℤ → ℚ} {M : List ℤ} (hM : M ≠ [])
    (h : ∀ i ∈ M, fminDraw ≤ iir i) :
    refVal useAvg iir M =
      if useAvg = true then (M.map iir).sum / (M.length : ℚ) else qRunMax (M.map iir) := by
  unfold refVal
  cases useAvg
  · simp only [Bool.false_eq_true, if_false]
    exact max_eq_left (fmin_le_mapRunMax hM h)
  · simp only [if_true]
    exact max_eq_left (fmin_le_mapAvg hM h)

theorem refVal_le_refVal {mode : PlotMode} {iir : ℤ → ℚ} {M : List ℤ} (hM : M ≠ []) :
    refVal (minIsAverage mode) iir M ≤ refVal (peakIsAverage mode) iir M := by
  have havgle : max ((M.map iir).sum / (M.length : ℚ)) fminDraw ≤
      max (qRunMax (M.map iir)) fminDraw :=
    max_le_max (mapAvg_le_mapRunMax hM) (le_refl _)
  cases mode
  · exact le_refl _
  · exact le_refl _
  · show refVal true iir M ≤ refVal false iir M
    unfold refVal
    simp only [if_true, Bool.false_eq_true, if_false]
    exact havgle
  · show refVal true iir M ≤ refVal false iir M
    unfold refVal
    simp only [if_true, Bool.false_eq_true, if_false]
    exact havgle

/-- C1 (amended): in the oversampled regime (numBins >= w), for every pixel
column t in [xmin, xmax) TO WHICH AT LEAST ONE BIN MAPS, the aggregation pass
writes column t; the stored raw (resp. IIR) max equals the true maximum of
the raw (resp. IIR) values over the bins mapped to t, the stored avg equals
their sum divided by their count, and max >= avg holds for both pairs.  (The
original claim - that EVERY column of [xmin, xmax) is written - is refuted by
c1_skipped_column below: when xScale > 1 a column can have no mapped bin.) -/
theorem c1_oversampled_aggregation {c : DrawCfg} {mode : PlotMode}
    {raw iir : ℤ → ℚ} {b : AggBufs} {t : ℤ}
    (hreg : c.w ≤ (numBins c : ℚ)) (hsc : 0 ≤ xScale c)
    (hlo : xmin c ≤ t) (hhi : t < xmax c)
    (hmap : ∃ i ∈ binList c, xOf c i = t)
    (hfl : ∀ i ∈ binList c, fminDraw ≤ raw i ∧ fminDraw ≤ iir i) :
    t ∈ (drawPass c mode raw iir b).2 ∧
    (drawPass c mode raw iir b).1.wfMax t = qRunMax ((mappedBins c t).map raw) ∧
    (∀ i ∈ mappedBins c t, raw i ≤ (drawPass c mode raw iir b).1.wfMax t) ∧
    (∃ i ∈ mappedBins c t, (drawPass c mode raw iir b).1.wfMax t = raw i) ∧
    (drawPass c mode raw iir b).1.wfAvg t =
      ((mappedBins c t).map raw).sum / ((mappedBins c t).length : ℚ) ∧
    (drawPass c mode raw iir b).1.fftMax t = qRunMax ((mappedBins c t).map iir) ∧
    (∀ i ∈ mappedBins c t, iir i ≤ (drawPass c mode raw iir b).1.fftMax t) ∧
    (∃ i ∈ mappedBins c t, (drawPass c mode raw iir b).1.fftMax t = iir i) ∧
    (drawPass c mode raw iir b).1.fftAvg t =
      ((mappedBins c t).map iir).sum / ((mappedBins c t).length : ℚ) ∧
    (drawPass c mode raw iir b).1.wfAvg t ≤ (drawPass c mode raw iir b).1.wfMax t ∧
    (drawPass c mode raw iir b).1.fftAvg t ≤ (drawPass c mode raw iir b).1.fftMax t := by
  have hps : drawPass c mode raw iir b =
      ((aggregateOversampled c mode raw iir b).bufs,
        (aggregateOversampled c mode raw iir b).written) := by
    unfold drawPass
    rw [if_pos hreg]
  rw [hps]
  unfold mappedBins
  have hM := @agg_master c mode raw iir b t hsc hlo hhi hmap
  obtain ⟨hMne, ⟨f1, f2, f3, f4, _, _⟩, hwr, _, _⟩ := hM
  have hsub : ∀ i ∈ (binList c).filter (fun i => xOf c i == t), i ∈ binList c := fun i hi => List.mem_of_mem_filter hi
  have hflraw : ∀ i ∈ (binList c).filter (fun i => xOf c i == t), fminDraw ≤ raw i := fun i hi => (hfl i (hsub i hi)).1
  have hfliir : ∀ i ∈ (binList c).filter (fun i => xOf c i == t), fminDraw ≤ iir i := fun i hi => (hfl i (hsub i hi)).2
  have e1 : (aggregateOversampled c mode raw iir b).bufs.wfMax t =
      qRunMax (((binList c).filter (fun i => xOf c i == t)).map raw) := by
    rw [f1]
    exact max_eq_left (fmin_le_mapRunMax hMne hflraw)
  have e2 : (aggregateOversampled c mode raw iir b).bufs.fftMax t =
      qRunMax (((binList c).filter (fun i => xOf c i == t)).map iir) := by
    rw [f2]
    exact max_eq_left (fmin_le_mapRunMax hMne hfliir)
  have e3 : (aggregateOversampled c mode raw iir b).bufs.wfAvg t =
      (((binList c).filter (fun i => xOf c i == t)).map raw).sum / (((binList c).filter (fun i => xOf c i == t)).length : ℚ) := by
    rw [f3]
    exact max_eq_left (fmin_le_mapAvg hMne hflraw)
  have e4 : (aggregateOversampled c mode raw iir b).bufs.fftAvg t =
      (((binList c).filter (fun i => xOf c i == t)).map iir).sum / (((binList c).filter (fun i => xOf c i == t)).length : ℚ) := by
    rw [f4]
    exact max_eq_left (fmin_le_mapAvg hMne hfliir)
  refine ⟨hwr, e1, ?_, ?_, e3, e2, ?_, ?_, e4, ?_, ?_⟩
  · intro i hi
    rw [e1]
    exact le_qRunMax (List.mem_map_of_mem raw hi)
  · obtain ⟨x, hx, hxe⟩ := List.mem_map.mp (qRunMax_mem (map_ne_nil (f := raw) hMne))
    exact ⟨x, hx, by rw [e1, ← hxe]⟩
  · intro i hi
    rw [e2]
    exact le_qRunMax (List.mem_map_of_mem iir hi)
  · obtain ⟨x, hx, hxe⟩ := List.mem_map.mp (qRunMax_mem (map_ne_nil (f := iir) hMne))
    exact ⟨x, hx, by rw [e2, ← hxe]⟩
  · rw [e1, e3]
    exact mapAvg_le_mapRunMax hMne
  · rw [e2, e4]
    exact mapAvg_le_mapRunMax hMne

/-- Evaluation rule for qfloor on a concrete rational. -/
theorem qfloor_eval {q : ℚ} {n : ℤ} (h1 : (n : ℚ) ≤ q) (h2 : q < (n : ℚ) + 1) :
    qfloor q = n := by
  rw [qfloor_eq_floor]
  exact Int.floor_eq_iff.mpr ⟨h1, by push_cast; linarith⟩

/-- Evaluation rule for qceil on a concrete rational. -/
theorem qceil_eval {q : ℚ} {n : ℤ} (h1 : (n : ℚ) - 1 < q) (h2 : q ≤ (n : ℚ)) :
    qceil q = n := by
  rw [qceil_eq_ceil]
  exact Int.ceil_eq_iff.mpr ⟨by push_cast; linarith, h2⟩

/-- Evaluation rule for qRound on a concrete nonnegative rational. -/
theorem qRound_eval {q : ℚ} {n : ℤ} (h0 : 0 ≤ q) (h1 : (n : ℚ) ≤ q + 1/2)
    (h2 : q + 1/2 < (n : ℚ) + 1) : qRound q = n := by
  unfold qRound
  rw [if_pos h0]
  exact qfloor_eval h1 h2

/-- Evaluation rule for cTrunc on a concrete nonnegative rational. -/
theorem cTrunc_eval {q : ℚ} {n : ℤ} (h0 : 0 ≤ q) (h1 : (n : ℚ) ≤ q)
    (h2 : q < (n : ℚ) + 1) : cTrunc q = n := by
  unfold cTrunc
  rw [if_pos h0]
  exact qfloor_eval h1 h2

theorem cfgSkip_startBin : startBin cfgSkip = 1998 := by
  have h1 : startBinD cfgSkip = 9992/5 := by
    unfold startBinD startFreq binsPerHz cfgSkip
    norm_num
  unfold startBin
  rw [h1, qRound_eval (n := 1998) (by norm_num) (by norm_num) (by norm_num)]
  unfold cfgSkip
  decide

theorem cfgSkip_numBins : numBins cfgSkip = 4 := by
  unfold numBins binsPerHz cfgSkip
  rw [show ((1 : ℚ) * (((4000 : ℤ) : ℚ) / (1250 : ℚ))) = 16/5 by norm_num]
  exact qceil_eval (n := 4) (by norm_num) (by norm_num)

theorem cfgSkip_minbin : minbin cfgSkip = 1998 := by
  unfold minbin
  rw [cfgSkip_startBin]
  decide

theorem cfgSkip_maxbin : maxbin cfgSkip = 2003 := by
  unfold maxbin endBin
  rw [cfgSkip_startBin, cfgSkip_numBins]
  unfold cfgSkip
  decide

theorem cfgSkip_xScale : xScale cfgSkip = 5/4 := by
  unfold xScale cfgSkip
  norm_num

theorem cfgSkip_xmin : xmin cfgSkip = 0 := by
  unfold xmin
  rw [cfgSkip_minbin, cfgSkip_startBin, cfgSkip_xScale]
  rw [show (((1998 - 1998 : ℤ) : ℚ) * (5/4)) = 0 by norm_num]
  exact qRound_eval (n := 0) (by norm_num) (by norm_num) (by norm_num)

theorem cfgSkip_xmax : xmax cfgSkip = 4 := by
  unfold xmax
  rw [cfgSkip_maxbin, cfgSkip_startBin, cfgSkip_xScale]
  rw [show (((2003 - 1998 : ℤ) : ℚ) * (5/4)) = 25/4 by norm_num]
  rw [qRound_eval (n := 6) (by norm_num) (by norm_num) (by norm_num)]
  rw [show cfgSkip.w = 4 from rfl]
  rw [qRound_eval (n := 4) (by norm_num) (by norm_num) (by norm_num)]
  decide

theorem cfgSkip_xOf0 : xOf cfgSkip 1998 = 0 := by
  unfold xOf xD
  rw [cfgSkip_startBin, cfgSkip_xScale]
  rw [show (((1998 - 1998 : ℤ) : ℚ) * (5/4)) = 0 by norm_num]
  exact qRound_eval (n := 0) (by norm_num) (by norm_num) (by norm_num)

theorem cfgSkip_xOf1 : xOf cfgSkip 1999 = 1 := by
  unfold xOf xD
  rw [cfgSkip_startBin, cfgSkip_xScale]
  rw [show (((1999 - 1998 : ℤ) : ℚ) * (5/4)) = 5/4 by norm_num]
  exact qRound_eval (n := 1) (by norm_num) (by norm_num) (by norm_num)

theorem cfgSkip_xOf2 : xOf cfgSkip 2000 = 3 := by
  unfold xOf xD
  rw [cfgSkip_startBin, cfgSkip_xScale]
  rw [show (((2000 - 1998 : ℤ) : ℚ) * (5/4)) = 5/2 by norm_num]
  exact qRound_eval (n := 3) (by norm_num) (by norm_num) (by norm_num)

theorem cfgSkip_xOf3 : xOf cfgSkip 2001 = 4 := by
  unfold xOf xD
  rw [cfgSkip_startBin, cfgSkip_xScale]
  rw [show (((2001 - 1998 : ℤ) : ℚ) * (5/4)) = 15/4 by norm_num]
  exact qRound_eval (n := 4) (by norm_num) (by norm_num) (by norm_num)

theorem cfgSkip_xOf4 : xOf cfgSkip 2002 = 5 := by
  unfold xOf xD
  rw [cfgSkip_startBin, cfgSkip_xScale]
  rw [show (((2002 - 1998 : ℤ) : ℚ) * (5/4)) = 5 by norm_num]
  exact qRound_eval (n := 5) (by norm_num) (by norm_num) (by norm_num)

theorem cfgSkip_xOf5 : xOf cfgSkip 2003 = 6 := by
  unfold xOf xD
  rw [cfgSkip_startBin, cfgSkip_xScale]
  rw [show (((2003 - 1998 : ℤ) : ℚ) * (5/4)) = 25/4 by norm_num]
  exact qRound_eval (n := 6) (by norm_num) (by norm_num) (by norm_num)

theorem cfgSkip_binList : binList cfgSkip = [1998, 1999, 2000, 2001, 2002, 2003] := by
  unfold binList
  rw [cfgSkip_minbin, cfgSkip_maxbin]
  rfl

theorem cfgSkip_w_le : cfgSkip.w ≤ (numBins cfgSkip : ℚ) := by
  rw [cfgSkip_numBins]
  show (4 : ℚ) ≤ ((4 : ℤ) : ℚ)
  norm_num


theorem aggLoop_written_sources {P Mn : Bool} {xOfF : ℤ → ℤ} {raw iir : ℤ → ℚ} :
    ∀ (L : List ℤ) (s : AggState) (t : ℤ),
    t ∈ (aggLoop P Mn xOfF raw iir L s).written →
    t ∈ s.written ∨ t = s.xprev ∨ ∃ i ∈ L, xOfF i = t := by
  intro L
  induction L with
  | nil => intro s t h; exact Or.inl h
  | cons i L2 ih =>
      intro s t h
      have hstep : ∀ (s2 : AggState) (il : Bool),
          t ∈ (aggStep P Mn (xOfF i) (raw i) (iir i) il s2).written →
          t ∈ s2.written ∨ t = s2.xprev := by
        intro s2 il hh
        rcases aggStep_cases P Mn (xOfF i) (raw i) (iir i) il s2 with hc | hc | hc | hc <;>
          rw [hc] at hh <;>
          first
            | (rcases List.mem_cons.mp hh with h1 | h1
               · exact Or.inr h1
               · exact Or.inl h1)
            | exact Or.inl hh
      cases L2 with
      | nil =>
          rcases hstep s true h with h1 | h1
          · exact Or.inl h1
          · exact Or.inr (Or.inl h1)
      | cons j rest =>
          rcases ih (aggStep P Mn (xOfF i) (raw i) (iir i) false s) t h with h1 | h1 | h1
          · rcases hstep s false h1 with h2 | h2
            · exact Or.inl h2
            · exact Or.inr (Or.inl h2)
          · -- t equals the intermediate xprev, which is the head column or the old xprev
            rcases aggStep_cases P Mn (xOfF i) (raw i) (iir i) false s with hc | hc | hc | hc <;>
              rw [hc] at h1 <;>
              first
                | exact Or.inr (Or.inr ⟨i, List.mem_cons_self i _, h1.symm⟩)
                | exact Or.inr (Or.inl h1)
          · obtain ⟨k, hk, hkt⟩ := h1
            exact Or.inr (Or.inr ⟨k, List.mem_cons_of_mem i hk, hkt⟩)

theorem cfgSkip_no_bin_to_2 : ∀ i ∈ binList cfgSkip, xOf cfgSkip i ≠ 2 := by
  intro i hi
  rw [cfgSkip_binList] at hi
  fin_cases hi <;>
    simp only [cfgSkip_xOf0, cfgSkip_xOf1, cfgSkip_xOf2, cfgSkip_xOf3, cfgSkip_xOf4,
      cfgSkip_xOf5] <;>
    decide

/-- C1 counterexample: with sampleFreq 1250, fftSize 4000, span 1 Hz, width
4 px we are in the oversampled regime (numBins = 4 >= w = 4) but
xScale = 5/4 > 1; column 2 lies in [xmin, xmax) = [0, 4) yet no bin maps to
it, the pass never writes it, and the stored max buffer keeps its prior
sentinel value - refuting "the aggregation pass writes every pixel column in
[x_min, x_max)". -/
theorem c1_skipped_column :
    cfgSkip.w ≤ (numBins cfgSkip : ℚ) ∧
    xmin cfgSkip ≤ 2 ∧ 2 < xmax cfgSkip ∧
    2 ∉ (drawPass cfgSkip PlotMode.pmMax (fun _ => 1) (fun _ => 1) bufInit).2 ∧
    (drawPass cfgSkip PlotMode.pmMax (fun _ => 1) (fun _ => 1) bufInit).1.wfMax 2 = 999 ∧
    mappedBins cfgSkip 2 = [] := by
  have hps : drawPass cfgSkip PlotMode.pmMax (fun _ => 1) (fun _ => 1) bufInit =
      ((aggregateOversampled cfgSkip PlotMode.pmMax (fun _ => 1) (fun _ => 1) bufInit).bufs,
        (aggregateOversampled cfgSkip PlotMode.pmMax (fun _ => 1) (fun _ => 1) bufInit).written) := by
    unfold drawPass
    rw [if_pos cfgSkip_w_le]
  have hxprev : (initAggState bufInit (xmin cfgSkip)).xprev ≠ 2 := by
    rw [show (initAggState bufInit (xmin cfgSkip)).xprev = xmin cfgSkip from rfl,
      cfgSkip_xmin]
    decide
  refine ⟨cfgSkip_w_le, by rw [cfgSkip_xmin]; decide, by rw [cfgSkip_xmax]; decide,
    ?_, ?_, ?_⟩
  · rw [hps]
    intro hmem
    have hmem2 : 2 ∈ (aggLoop (peakIsAverage PlotMode.pmMax) (minIsAverage PlotMode.pmMax)
        (xOf cfgSkip) (fun _ => 1) (fun _ => 1) (binList cfgSkip)
        (initAggState bufInit (xmin cfgSkip))).written := hmem
    rcases aggLoop_written_sources _ _ _ hmem2 with h1 | h1 | h1
    · exact List.not_mem_nil 2 h1
    · exact hxprev h1.symm
    · obtain ⟨i, hi, hit⟩ := h1
      exact cfgSkip_no_bin_to_2 i hi hit
  · rw [hps]
    have hag := @aggLoop_untouched (peakIsAverage PlotMode.pmMax)
      (minIsAverage PlotMode.pmMax) (xOf cfgSkip) (fun _ => 1) (fun _ => 1)
      (binList cfgSkip) (initAggState bufInit (xmin cfgSkip)) 2 hxprev cfgSkip_no_bin_to_2
    exact hag.1
  · unfold mappedBins
    rw [cfgSkip_binList]
    simp [cfgSkip_xOf0, cfgSkip_xOf1, cfgSkip_xOf2, cfgSkip_xOf3, cfgSkip_xOf4,
      cfgSkip_xOf5]

theorem cfgRun_startBin : startBin cfgRun = 498 := by
  have h1 : startBinD cfgRun = 498 := by
    unfold startBinD startFreq binsPerHz cfgRun
    norm_num
  unfold startBin
  rw [h1, qRound_eval (n := 498) (by norm_num) (by norm_num) (by norm_num)]
  unfold cfgRun
  decide

theorem cfgRun_numBins : numBins cfgRun = 4 := by
  unfold numBins binsPerHz cfgRun
  rw [show ((4 : ℚ) * (((1000 : ℤ) : ℚ) / (1000 : ℚ))) = 4 by norm_num]
  exact qceil_eval (n := 4) (by norm_num) (by norm_num)

theorem cfgRun_minbin : minbin cfgRun = 498 := by
  unfold minbin
  rw [cfgRun_startBin]
  decide

theorem cfgRun_maxbin : maxbin cfgRun = 503 := by
  unfold maxbin endBin
  rw [cfgRun_startBin, cfgRun_numBins]
  unfold cfgRun
  decide

theorem cfgRun_xScale : xScale cfgRun = 1/2 := by
  unfold xScale cfgRun
  norm_num

theorem cfgRun_xmin : xmin cfgRun = 0 := by
  unfold xmin
  rw [cfgRun_minbin, cfgRun_startBin, cfgRun_xScale]
  rw [show (((498 - 498 : ℤ) : ℚ) * (1/2)) = 0 by norm_num]
  exact qRound_eval (n := 0) (by norm_num) (by norm_num) (by norm_num)

theorem cfgRun_xmax : xmax cfgRun = 2 := by
  unfold xmax
  rw [cfgRun_maxbin, cfgRun_startBin, cfgRun_xScale]
  rw [show (((503 - 498 : ℤ) : ℚ) * (1/2)) = 5/2 by norm_num]
  rw [qRound_eval (n := 3) (by norm_num) (by norm_num) (by norm_num)]
  rw [show cfgRun.w = 2 from rfl]
  rw [qRound_eval (n := 2) (by norm_num) (by norm_num) (by norm_num)]
  decide

theorem cfgRun_xOf0 : xOf cfgRun 498 = 0 := by
  unfold xOf xD
  rw [cfgRun_startBin, cfgRun_xScale]
  rw [show (((498 - 498 : ℤ) : ℚ) * (1/2)) = 0 by norm_num]
  exact qRound_eval (n := 0) (by norm_num) (by norm_num) (by norm_num)

theorem cfgRun_xOf1 : xOf cfgRun 499 = 1 := by
  unfold xOf xD
  rw [cfgRun_startBin, cfgRun_xScale]
  rw [show (((499 - 498 : ℤ) : ℚ) * (1/2)) = 1/2 by norm_num]
  exact qRound_eval (n := 1) (by norm_num) (by norm_num) (by norm_num)

theorem cfgRun_xOf2 : xOf cfgRun 500 = 1 := by
  unfold xOf xD
  rw [cfgRun_startBin, cfgRun_xScale]
  rw [show (((500 - 498 : ℤ) : ℚ) * (1/2)) = 1 by norm_num]
  exact qRound_eval (n := 1) (by norm_num) (by norm_num) (by norm_num)

theorem cfgRun_xOf3 : xOf cfgRun 501 = 2 := by
  unfold xOf xD
  rw [cfgRun_startBin, cfgRun_xScale]
  rw [show (((501 - 498 : ℤ) : ℚ) * (1/2)) = 3/2 by norm_num]
  exact qRound_eval (n := 2) (by norm_num) (by norm_num) (by norm_num)

theorem cfgRun_xOf4 : xOf cfgRun 502 = 2 := by
  unfold xOf xD
  rw [cfgRun_startBin, cfgRun_xScale]
  rw [show (((502 - 498 : ℤ) : ℚ) * (1/2)) = 2 by norm_num]
  exact qRound_eval (n := 2) (by norm_num) (by norm_num) (by norm_num)

theorem cfgRun_xOf5 : xOf cfgRun 503 = 3 := by
  unfold xOf xD
  rw [cfgRun_startBin, cfgRun_xScale]
  rw [show (((503 - 498 : ℤ) : ℚ) * (1/2)) = 5/2 by norm_num]
  exact qRound_eval (n := 3) (by norm_num) (by norm_num) (by norm_num)

theorem cfgRun_binList : binList cfgRun = [498, 499, 500, 501, 502, 503] := by
  unfold binList
  rw [cfgRun_minbin, cfgRun_maxbin]
  rfl

theorem cfgRun_w_le : cfgRun.w ≤ (numBins cfgRun : ℚ) := by
  rw [cfgRun_numBins]
  show (2 : ℚ) ≤ ((4 : ℤ) : ℚ)
  norm_num

theorem cfgRun_xScale_nonneg : 0 ≤ xScale cfgRun := by
  rw [cfgRun_xScale]
  norm_num

theorem cfgRun_map_to_1 : ∃ i ∈ binList cfgRun, xOf cfgRun i = 1 := by
  refine ⟨499, ?_, cfgRun_xOf1⟩
  rw [cfgRun_binList]
  decide

theorem cfgRun_rawRun_floor : ∀ i ∈ binList cfgRun, fminDraw ≤ rawRun i ∧ fminDraw ≤ rawRun i := by
  intro i hi
  have h1 : fminDraw ≤ 1 := by
    unfold fminDraw
    norm_num
  have h4 : fminDraw ≤ 4 := by
    unfold fminDraw
    norm_num
  unfold rawRun
  constructor <;> (split <;> first | exact h4 | exact h1)

theorem cfgRun_mappedBins_1 : mappedBins cfgRun 1 = [499, 500] := by
  unfold mappedBins
  rw [cfgRun_binList]
  simp [cfgRun_xOf0, cfgRun_xOf1, cfgRun_xOf2, cfgRun_xOf3, cfgRun_xOf4, cfgRun_xOf5]

/-- C1 witness: the amended theorem applied at the concrete instance cfgRun,
column 1 (run bins 499, 500 with raw values 4 and 1). -/
theorem c1_oversampled_aggregation_witness :
    (cfgRun.w ≤ (numBins cfgRun : ℚ) ∧ 0 ≤ xScale cfgRun ∧ xmin cfgRun ≤ 1 ∧
      1 < xmax cfgRun ∧ (∃ i ∈ binList cfgRun, xOf cfgRun i = 1) ∧
      (∀ i ∈ binList cfgRun, fminDraw ≤ rawRun i ∧ fminDraw ≤ rawRun i)) ∧
    (drawPass cfgRun PlotMode.pmFilled rawRun rawRun bufInit).1.wfMax 1 =
      qRunMax ((mappedBins cfgRun 1).map rawRun) ∧
    (drawPass cfgRun PlotMode.pmFilled rawRun rawRun bufInit).1.wfAvg 1 ≤
      (drawPass cfgRun PlotMode.pmFilled rawRun rawRun bufInit).1.wfMax 1 :=
  ⟨⟨cfgRun_w_le, cfgRun_xScale_nonneg, by rw [cfgRun_xmin]; decide,
    by rw [cfgRun_xmax]; decide, cfgRun_map_to_1, cfgRun_rawRun_floor⟩,
   (c1_oversampled_aggregation cfgRun_w_le cfgRun_xScale_nonneg
     (by rw [cfgRun_xmin]; decide) (by rw [cfgRun_xmax]; decide)
     cfgRun_map_to_1 cfgRun_rawRun_floor).2.1,
   (c1_oversampled_aggregation cfgRun_w_le cfgRun_xScale_nonneg
     (by rw [cfgRun_xmin]; decide) (by rw [cfgRun_xmax]; decide)
     cfgRun_map_to_1 cfgRun_rawRun_floor).2.2.2.2.2.2.2.2.2.1⟩

/-- C4: in the oversampled aggregation pass (the pass the claim's cited lines
1211-1214, 1282-1298 and 1312-1313 belong to), for every written column the
max-hold (resp. min-hold) is reset to the mode-selected reference value -
the IIR column average when the mode rule selects averages (max-hold: only
PLOT_MODE_AVG; min-hold: every mode except PLOT_MODE_MAX), the IIR column max
otherwise - when its validity flag is false, and combined with componentwise
max (resp. min) when the flag is true; both flags are true after the pass. -/
theorem c4_hold_update {c : DrawCfg} {mode : PlotMode} {raw iir : ℤ → ℚ}
    {b : AggBufs} {t : ℤ}
    (hreg : c.w ≤ (numBins c : ℚ)) (hsc : 0 ≤ xScale c)
    (hlo : xmin c ≤ t) (hhi : t < xmax c)
    (hmap : ∃ i ∈ binList c, xOf c i = t)
    (hfl : ∀ i ∈ binList c, fminDraw ≤ raw i ∧ fminDraw ≤ iir i) :
    (drawPass c mode raw iir b).1.maxHoldValid = true ∧
    (drawPass c mode raw iir b).1.minHoldValid = true ∧
    (drawPass c mode raw iir b).1.maxHold t =
      (if b.maxHoldValid = true then
        max (b.maxHold t)
          (if peakIsAverage mode = true then
            ((mappedBins c t).map iir).sum / ((mappedBins c t).length : ℚ)
          else qRunMax ((mappedBins c t).map iir))
      else
        (if peakIsAverage mode = true then
          ((mappedBins c t).map iir).sum / ((mappedBins c t).length : ℚ)
        else qRunMax ((mappedBins c t).map iir))) ∧
    (drawPass c mode raw iir b).1.minHold t =
      (if b.minHoldValid = true then
        min (b.minHold t)
          (if minIsAverage mode = true then
            ((mappedBins c t).map iir).sum / ((mappedBins c t).length : ℚ)
          else qRunMax ((mappedBins c t).map iir))
      else
        (if minIsAverage mode = true then
          ((mappedBins c t).map iir).sum / ((mappedBins c t).length : ℚ)
        else qRunMax ((mappedBins c t).map iir))) := by
  have hps : drawPass c mode raw iir b =
      ((aggregateOversampled c mode raw iir b).bufs,
        (aggregateOversampled c mode raw iir b).written) := by
    unfold drawPass
    rw [if_pos hreg]
  rw [hps]
  unfold mappedBins
  have hM := @agg_master c mode raw iir b t hsc hlo hhi hmap
  obtain ⟨hMne, ⟨_, _, _, _, f5, f6⟩, _, hv1, hv2⟩ := hM
  have hsub : ∀ i ∈ (binList c).filter (fun i => xOf c i == t), i ∈ binList c :=
    fun i hi => List.mem_of_mem_filter hi
  have hfliir : ∀ i ∈ (binList c).filter (fun i => xOf c i == t), fminDraw ≤ iir i :=
    fun i hi => (hfl i (hsub i hi)).2
  rw [refVal_no_floor hMne hfliir] at f5
  rw [refVal_no_floor hMne hfliir] at f6
  exact ⟨hv1, hv2, f5, f6⟩

/-- C4 witness: the theorem applied at cfgRun, mode PLOT_MODE_MAX, column 1
(invalid holds reset to the run's IIR maximum, flags set). -/
theorem c4_hold_update_witness :
    ((drawPass cfgRun PlotMode.pmMax rawRun rawRun bufInit).1.maxHoldValid = true ∧
     (drawPass cfgRun PlotMode.pmMax rawRun rawRun bufInit).1.minHoldValid = true) ∧
    (drawPass cfgRun PlotMode.pmMax rawRun rawRun bufInit).1.maxHold 1 =
      (if bufInit.maxHoldValid = true then
        max (bufInit.maxHold 1)
          (if peakIsAverage PlotMode.pmMax = true then
            ((mappedBins cfgRun 1).map rawRun).sum / ((mappedBins cfgRun 1).length : ℚ)
          else qRunMax ((mappedBins cfgRun 1).map rawRun))
      else
        (if peakIsAverage PlotMode.pmMax = true then
          ((mappedBins cfgRun 1).map rawRun).sum / ((mappedBins cfgRun 1).length : ℚ)
        else qRunMax ((mappedBins cfgRun 1).map rawRun))) :=
  ⟨⟨(c4_hold_update cfgRun_w_le cfgRun_xScale_nonneg (by rw [cfgRun_xmin]; decide)
      (by rw [cfgRun_xmax]; decide) cfgRun_map_to_1 cfgRun_rawRun_floor).1,
    (c4_hold_update cfgRun_w_le cfgRun_xScale_nonneg (by rw [cfgRun_xmin]; decide)
      (by rw [cfgRun_xmax]; decide) cfgRun_map_to_1 cfgRun_rawRun_floor).2.1⟩,
   (c4_hold_update cfgRun_w_le cfgRun_xScale_nonneg (by rw [cfgRun_xmin]; decide)
      (by rw [cfgRun_xmax]; decide) cfgRun_map_to_1 cfgRun_rawRun_floor).2.2.1⟩

/-- C9 (amended): after the oversampled pass both hold flags are true and,
for every written column, the stored min-hold is at most the column's
min-reference value, the column's max-reference value is at most the stored
max-hold, and min-hold <= max-hold.  The reference values are the
mode-selected flushed quantities (refVal); the per-sample bracketing of the
original claim fails (see c9_sample_below_minHold). -/
theorem c9_hold_reference_bracket {c : DrawCfg} {mode : PlotMode}
    {raw iir : ℤ → ℚ} {b : AggBufs} {t : ℤ}
    (hreg : c.w ≤ (numBins c : ℚ)) (hsc : 0 ≤ xScale c)
    (hlo : xmin c ≤ t) (hhi : t < xmax c)
    (hmap : ∃ i ∈ binList c, xOf c i = t) :
    (drawPass c mode raw iir b).1.maxHoldValid = true ∧
    (drawPass c mode raw iir b).1.minHoldValid = true ∧
    (drawPass c mode raw iir b).1.minHold t ≤
      refVal (minIsAverage mode) iir (mappedBins c t) ∧
    refVal (peakIsAverage mode) iir (mappedBins c t) ≤
      (drawPass c mode raw iir b).1.maxHold t ∧
    (drawPass c mode raw iir b).1.minHold t ≤ (drawPass c mode raw iir b).1.maxHold t := by
  have hps : drawPass c mode raw iir b =
      ((aggregateOversampled c mode raw iir b).bufs,
        (aggregateOversampled c mode raw iir b).written) := by
    unfold drawPass
    rw [if_pos hreg]
  rw [hps]
  unfold mappedBins
  have hM := @agg_master c mode raw iir b t hsc hlo hhi hmap
  obtain ⟨hMne, ⟨_, _, _, _, f5, f6⟩, _, hv1, hv2⟩ := hM
  have hmin : (aggregateOversampled c mode raw iir b).bufs.minHold t ≤
      refVal (minIsAverage mode) iir ((binList c).filter (fun i => xOf c i == t)) := by
    rw [f6]
    cases hb : b.minHoldValid
    · simp only [Bool.false_eq_true, if_false]
      exact le_refl _
    · simp only [if_true]
      exact min_le_right _ _
  have hmax : refVal (peakIsAverage mode) iir ((binList c).filter (fun i => xOf c i == t)) ≤
      (aggregateOversampled c mode raw iir b).bufs.maxHold t := by
    rw [f5]
    cases hb : b.maxHoldValid
    · simp only [Bool.false_eq_true, if_false]
      exact le_refl _
    · simp only [if_true]
      exact le_max_right _ _
  exact ⟨hv1, hv2, hmin, hmax,
    le_trans hmin (le_trans (refVal_le_refVal hMne) hmax)⟩

theorem cfgRun_rawRun_499 : rawRun 499 = 4 := by
  unfold rawRun
  norm_num

theorem cfgRun_rawRun_500 : rawRun 500 = 1 := by
  unfold rawRun
  norm_num

theorem cfgRun_runMax_col1 : qRunMax ((mappedBins cfgRun 1).map rawRun) = 4 := by
  rw [cfgRun_mappedBins_1]
  rw [show ([499, 500] : List ℤ).map rawRun = [rawRun 499, rawRun 500] from rfl,
    cfgRun_rawRun_499, cfgRun_rawRun_500]
  unfold qRunMax
  simp only [List.foldl_cons, List.foldl_nil]
  rw [max_eq_right (by norm_num : (1 : ℚ) ≤ 4)]

/-- C9 counterexample: in PLOT_MODE_MAX the min-hold reference is the column
IIR MAXIMUM, so after one pass from invalid holds on cfgRun (bins 499, 500
map to column 1 with IIR values 4 and 1), both flags are valid but
min-hold[1] = 4 exceeds the sample value 1 of mapped bin 500 - refuting
"min-hold <= every sample of the column". -/
theorem c9_sample_below_minHold :
    (drawPass cfgRun PlotMode.pmMax rawRun rawRun bufInit).1.maxHoldValid = true ∧
    (drawPass cfgRun PlotMode.pmMax rawRun rawRun bufInit).1.minHoldValid = true ∧
    xmin cfgRun ≤ 1 ∧ 1 < xmax cfgRun ∧
    500 ∈ binList cfgRun ∧ xOf cfgRun 500 = 1 ∧
    ¬ ((drawPass cfgRun PlotMode.pmMax rawRun rawRun bufInit).1.minHold 1 ≤ rawRun 500) := by
  have hps : drawPass cfgRun PlotMode.pmMax rawRun rawRun bufInit =
      ((aggregateOversampled cfgRun PlotMode.pmMax rawRun rawRun bufInit).bufs,
        (aggregateOversampled cfgRun PlotMode.pmMax rawRun rawRun bufInit).written) := by
    unfold drawPass
    rw [if_pos cfgRun_w_le]
  have hM := @agg_master cfgRun PlotMode.pmMax rawRun rawRun bufInit 1
    cfgRun_xScale_nonneg (by rw [cfgRun_xmin]; decide)
    (by rw [cfgRun_xmax]; decide) cfgRun_map_to_1
  obtain ⟨hMne, ⟨_, _, _, _, _, f6⟩, _, hv1, hv2⟩ := hM
  have hfeq : (binList cfgRun).filter (fun i => xOf cfgRun i == 1) = [499, 500] :=
    cfgRun_mappedBins_1
  rw [hfeq] at f6
  have hval : (aggregateOversampled cfgRun PlotMode.pmMax rawRun rawRun bufInit).bufs.minHold 1 = 4 := by
    rw [f6]
    rw [show bufInit.minHoldValid = false from rfl]
    simp only [Bool.false_eq_true, if_false]
    rw [show refVal (minIsAverage PlotMode.pmMax) rawRun [499, 500] =
        max (qRunMax (([499, 500] : List ℤ).map rawRun)) fminDraw from rfl]
    rw [show (([499, 500] : List ℤ).map rawRun) = [rawRun 499, rawRun 500] from rfl,
      cfgRun_rawRun_499, cfgRun_rawRun_500]
    rw [show qRunMax [(4 : ℚ), 1] = max 1 4 from rfl]
    rw [max_eq_right (by norm_num : (1 : ℚ) ≤ 4)]
    rw [max_eq_left ?_]
    unfold fminDraw
    norm_num
  rw [hps]
  refine ⟨hv1, hv2, by rw [cfgRun_xmin]; decide, by rw [cfgRun_xmax]; decide,
    by rw [cfgRun_binList]; decide, cfgRun_xOf2, ?_⟩
  rw [hval, cfgRun_rawRun_500]
  norm_num

/-- C9 witness: the amended theorem applied at cfgRun, mode PLOT_MODE_MAX,
column 1. -/
theorem c9_hold_reference_bracket_witness :
    (cfgRun.w ≤ (numBins cfgRun : ℚ) ∧ 0 ≤ xScale cfgRun ∧ xmin cfgRun ≤ 1 ∧
      1 < xmax cfgRun ∧ (∃ i ∈ binList cfgRun, xOf cfgRun i = 1)) ∧
    ((drawPass cfgRun PlotMode.pmMax rawRun rawRun bufInit).1.minHold 1 ≤
      refVal (minIsAverage PlotMode.pmMax) rawRun (mappedBins cfgRun 1) ∧
     (drawPass cfgRun PlotMode.pmMax rawRun rawRun bufInit).1.minHold 1 ≤
      (drawPass cfgRun PlotMode.pmMax rawRun rawRun bufInit).1.maxHold 1) :=
  ⟨⟨cfgRun_w_le, cfgRun_xScale_nonneg, by rw [cfgRun_xmin]; decide,
    by rw [cfgRun_xmax]; decide, cfgRun_map_to_1⟩,
   (c9_hold_reference_bracket cfgRun_w_le cfgRun_xScale_nonneg
     (by rw [cfgRun_xmin]; decide) (by rw [cfgRun_xmax]; decide)
     cfgRun_map_to_1).2.2.1,
   (c9_hold_reference_bracket cfgRun_w_le cfgRun_xScale_nonneg
     (by rw [cfgRun_xmin]; decide) (by rw [cfgRun_xmax]; decide)
     cfgRun_map_to_1).2.2.2.2⟩

/- ----------------------------------------------------------------- -/
/- C7: undersampled nearest-bin sampling (lines 1316-1353).           -/
/- ----------------------------------------------------------------- -/

theorem cfgU_startBinD : startBinD cfgU = 995/2 := by
  unfold startBinD startFreq binsPerHz cfgU
  norm_num

theorem cfgU_startBin : startBin cfgU = 498 := by
  unfold startBin
  rw [cfgU_startBinD, qRound_eval (n := 498) (by norm_num) (by norm_num) (by norm_num)]
  unfold cfgU
  decide

theorem cfgU_numBins : numBins cfgU = 5 := by
  unfold numBins binsPerHz cfgU
  rw [show ((5 : ℚ) * (((1000 : ℤ) : ℚ) / (1000 : ℚ))) = 5 by norm_num]
  exact qceil_eval (n := 5) (by norm_num) (by norm_num)

theorem cfgU_not_w_le : ¬ cfgU.w ≤ (numBins cfgU : ℚ) := by
  rw [cfgU_numBins]
  show ¬ (10 : ℚ) ≤ ((5 : ℤ) : ℚ)
  norm_num

theorem cfgU_xScale : xScale cfgU = 2 := by
  unfold xScale cfgU
  norm_num

theorem cfgU_minbin : minbin cfgU = 498 := by
  unfold minbin
  rw [cfgU_startBin]
  decide

theorem cfgU_maxbin : maxbin cfgU = 504 := by
  unfold maxbin endBin
  rw [cfgU_startBin, cfgU_numBins]
  unfold cfgU
  decide

theorem cfgU_xmin : xmin cfgU = 0 := by
  unfold xmin
  rw [cfgU_minbin, cfgU_startBin, cfgU_xScale]
  rw [show (((498 - 498 : ℤ) : ℚ) * 2) = 0 by norm_num]
  exact qRound_eval (n := 0) (by norm_num) (by norm_num) (by norm_num)

theorem cfgU_xmax : xmax cfgU = 10 := by
  unfold xmax
  rw [cfgU_maxbin, cfgU_startBin, cfgU_xScale]
  rw [show (((504 - 498 : ℤ) : ℚ) * 2) = 12 by norm_num]
  rw [qRound_eval (n := 12) (by norm_num) (by norm_num) (by norm_num)]
  rw [show cfgU.w = 10 from rfl]
  rw [qRound_eval (n := 10) (by norm_num) (by norm_num) (by norm_num)]
  decide

theorem cfgU_jOf1 : jOf cfgU 1 = 498 := by
  unfold jOf
  rw [cfgU_xScale, cfgU_startBinD]
  rw [show (((1 : ℤ) : ℚ) / 2 + 995/2) = 498 by norm_num]
  exact qRound_eval (n := 498) (by norm_num) (by norm_num) (by norm_num)

theorem cfgU_claimJOf1 : claimJOf cfgU 1 = 499 := by
  unfold claimJOf
  rw [cfgU_xScale, cfgU_startBin]
  rw [show (((1 : ℤ) : ℚ) / 2 + ((498 : ℤ) : ℚ)) = 997/2 by norm_num]
  exact qRound_eval (n := 499) (by norm_num) (by norm_num) (by norm_num)

/-- C7 (amended): in the undersampled regime (numBins < w) every column x in
[xmin, xmax) is written, the stored max and avg coincide, and both equal the
raw (resp. IIR) value of the single bin at index qRound(x / xScale +
startBinD) - the UNROUNDED startBinD, not the rounded startBin the claim
names - with no interpolation.  Holds update from that same sampled value. -/
theorem c7_undersampled_nearest_bin (c : DrawCfg) (mode : PlotMode)
    (raw iir : ℤ → ℚ) (b : AggBufs) (x : ℤ)
    (hreg : ¬ c.w ≤ (numBins c : ℚ)) (hlo : xmin c ≤ x) (hhi : x < xmax c) :
    (drawPass c mode raw iir b).1.wfMax x = raw (jOf c x) ∧
    (drawPass c mode raw iir b).1.wfAvg x = raw (jOf c x) ∧
    (drawPass c mode raw iir b).1.fftMax x = iir (jOf c x) ∧
    (drawPass c mode raw iir b).1.fftAvg x = iir (jOf c x) ∧
    (drawPass c mode raw iir b).1.maxHold x =
      (if b.maxHoldValid then max (b.maxHold x) (iir (jOf c x)) else iir (jOf c x)) ∧
    (drawPass c mode raw iir b).1.minHold x =
      (if b.minHoldValid then min (b.minHold x) (iir (jOf c x)) else iir (jOf c x)) ∧
    x ∈ (drawPass c mode raw iir b).2 := by
  unfold drawPass
  rw [if_neg hreg]
  unfold undersampledBufs
  simp only
  have hcond : xmin c ≤ x ∧ x < xmax c := ⟨hlo, hhi⟩
  simp only [if_pos hcond]
  refine ⟨trivial, trivial, trivial, trivial, trivial, trivial, ?_⟩
  rw [mem_intRange]
  omega

/-- C7 counterexample: on cfgU (startBinD = 497.5, xScale = 2) column 1
samples bin qRound(1/2 + 497.5) = 498, while the claimed index
qRound(1/2 + startBin) with the rounded startBin = 498 is bin 499; the
frame rawU distinguishes them (value 1 at 498 versus 2 at 499), so the
stored column value refutes the claimed index formula. -/
theorem c7_rounded_start_counterexample :
    (¬ cfgU.w ≤ (numBins cfgU : ℚ)) ∧ xmin cfgU ≤ 1 ∧ 1 < xmax cfgU ∧
    jOf cfgU 1 = 498 ∧ claimJOf cfgU 1 = 499 ∧
    (drawPass cfgU PlotMode.pmMax rawU rawU bufInit).1.wfMax 1 = 1 ∧
    rawU (claimJOf cfgU 1) = 2 ∧ ((1 : ℚ) ≠ 2) := by
  have hin : xmin cfgU ≤ 1 ∧ 1 < xmax cfgU := by
    rw [cfgU_xmin, cfgU_xmax]
    exact ⟨by decide, by decide⟩
  refine ⟨cfgU_not_w_le, hin.1, hin.2, cfgU_jOf1, cfgU_claimJOf1, ?_, ?_, by norm_num⟩
  · show (drawPass cfgU PlotMode.pmMax rawU rawU bufInit).1.wfMax 1 = 1
    unfold drawPass
    rw [if_neg cfgU_not_w_le]
    unfold undersampledBufs
    simp only
    rw [if_pos hin, cfgU_jOf1]
    unfold rawU
    norm_num
  · rw [cfgU_claimJOf1]
    unfold rawU
    norm_num

/-- C7 witness: the amended theorem applied on cfgU at column 1 in mode
PLOT_MODE_MAX. -/
theorem c7_undersampled_nearest_bin_witness :
    ((¬ cfgU.w ≤ (numBins cfgU : ℚ)) ∧ xmin cfgU ≤ 1 ∧ 1 < xmax cfgU) ∧
    ((drawPass cfgU PlotMode.pmMax rawU rawU bufInit).1.wfMax 1 = rawU (jOf cfgU 1) ∧
      (drawPass cfgU PlotMode.pmMax rawU rawU bufInit).1.fftAvg 1 = rawU (jOf cfgU 1) ∧
      1 ∈ (drawPass cfgU PlotMode.pmMax rawU rawU bufInit).2) :=
  ⟨⟨cfgU_not_w_le, by rw [cfgU_xmin]; decide, by rw [cfgU_xmax]; decide⟩,
   (c7_undersampled_nearest_bin cfgU PlotMode.pmMax rawU rawU bufInit 1
     cfgU_not_w_le (by rw [cfgU_xmin]; decide) (by rw [cfgU_xmax]; decide)).1,
   (c7_undersampled_nearest_bin cfgU PlotMode.pmMax rawU rawU bufInit 1
     cfgU_not_w_le (by rw [cfgU_xmin]; decide) (by rw [cfgU_xmax]; decide)).2.2.2.1,
   (c7_undersampled_nearest_bin cfgU PlotMode.pmMax rawU rawU bufInit 1
     cfgU_not_w_le (by rw [cfgU_xmin]; decide) (by rw [cfgU_xmax]; decide)).2.2.2.2.2.2⟩

/- ----------------------------------------------------------------- -/
/- C3: IIR memcpy shortcut (lines 1831-1861).                         -/
/- ----------------------------------------------------------------- -/

/-- C3: when the IIR state is invalid or the smoothing exponent a equals 1,
the updated IIR buffer equals the scaled-and-floored raw frame elementwise
(the memcpy shortcut); with a = 1 and a power function satisfying x^1 = x
the multiplicative update returns the same value wherever the previous IIR
is nonzero; and with a = 1 feeding the same frame any positive number of
times leaves the IIR buffer equal to the scaled frame after every call. -/
theorem c3_iir_shortcut (powF : ℚ → ℚ → ℚ) (size : ℤ) (ps : PlotScale)
    (perHz : Bool) (sampleFreq : ℚ) (input iirPrev : ℤ → ℚ) (a : ℚ)
    (iirValid : Bool) (hcase : iirValid = false ∨ a = 1) :
    iirNext powF a iirValid (scaledFrame size ps perHz sampleFreq input) iirPrev =
      scaledFrame size ps perHz sampleFreq input ∧
    ((∀ x, powF x 1 = x) → a = 1 → ∀ i, iirPrev i ≠ 0 →
      iirPrev i * powF (scaledFrame size ps perHz sampleFreq input i / iirPrev i) a =
        scaledFrame size ps perHz sampleFreq input i) ∧
    (a = 1 → ∀ n : ℕ, 1 ≤ n → ∀ st,
      (iirIter powF a (scaledFrame size ps perHz sampleFreq input) n st).1 =
        scaledFrame size ps perHz sampleFreq input) := by
  refine ⟨?_, ?_, ?_⟩
  · unfold iirNext
    rw [if_neg ?_]
    rcases hcase with h | h
    · intro hcon
      rw [h] at hcon
      exact absurd hcon.1 (by decide)
    · intro hcon
      exact hcon.2 h
  · intro hp ha i hne
    rw [ha, hp]
    rw [mul_comm]
    exact div_mul_cancel₀ _ hne
  · intro ha n hn st
    cases n with
    | zero => omega
    | succ m =>
      show (iirNext powF a
        (iirIter powF a (scaledFrame size ps perHz sampleFreq input) m st).2
        (scaledFrame size ps perHz sampleFreq input)
        (iirIter powF a (scaledFrame size ps perHz sampleFreq input) m st).1, true).1 =
        scaledFrame size ps perHz sampleFreq input
      simp only
      unfold iirNext
      rw [if_neg ?_]
      intro hcon
      exact hcon.2 ha

/-- C3 witness: the theorem applied with the identity-exponent power
function, a 4-point frame of ones in dBFS mode, previous IIR of ones, a = 1
and a valid IIR state. -/
theorem c3_iir_shortcut_witness :
    ((true = false ∨ (1 : ℚ) = 1) ∧ (∀ x : ℚ, (fun x _ => x) x (1 : ℚ) = x)) ∧
    iirNext (fun x _ => x) 1 true
        (scaledFrame 4 PlotScale.dbfs false 1000 (fun _ => 1)) (fun _ => 1) =
      scaledFrame 4 PlotScale.dbfs false 1000 (fun _ => 1) ∧
    (iirIter (fun x _ => x) 1 (scaledFrame 4 PlotScale.dbfs false 1000 (fun _ => 1))
        3 (fun _ => 0, false)).1 =
      scaledFrame 4 PlotScale.dbfs false 1000 (fun _ => 1) :=
  ⟨⟨Or.inr rfl, fun _ => rfl⟩,
   (c3_iir_shortcut (fun x _ => x) 4 PlotScale.dbfs false 1000 (fun _ => 1)
     (fun _ => 1) 1 true (Or.inr rfl)).1,
   (c3_iir_shortcut (fun x _ => x) 4 PlotScale.dbfs false 1000 (fun _ => 1)
     (fun _ => 1) 1 true (Or.inr rfl)).2.2 rfl 3 (by decide) (fun _ => 0, false)⟩

/- ----------------------------------------------------------------- -/
/- C8: dB-range setter guard (lines 69-79, 1877-1896).                -/
/- ----------------------------------------------------------------- -/

/-- C8: both dB-range setters reject exactly the pairs with an endpoint
outside [-160, 30] or with max < min + 2, leaving the stored state
completely unchanged; any other pair is stored exactly as (min, max), the
pandapter setter additionally invalidating the histogram IIR. -/
theorem c8_range_setter_guard (mn mx : ℚ) (stP : PandRange) (stW : WfRange) :
    ((mn < -160 ∨ 30 < mn ∨ mx < -160 ∨ 30 < mx ∨ mx < mn + 2) →
      setPandapterRange mn mx stP = stP ∧ setWaterfallRange mn mx stW = stW) ∧
    (¬ (mn < -160 ∨ 30 < mn ∨ mx < -160 ∨ 30 < mx ∨ mx < mn + 2) →
      setPandapterRange mn mx stP = ⟨mn, mx, false⟩ ∧
      setWaterfallRange mn mx stW = ⟨mn, mx⟩) := by
  have hiff : outOfRange mn mx = true ↔
      (mn < -160 ∨ 30 < mn ∨ mx < -160 ∨ 30 < mx ∨ mx < mn + 2) := by
    unfold outOfRange valIsOutOfRange fftMinDb fftMaxDb fftMinDbRange
    simp only [Bool.or_eq_true, decide_eq_true_eq]
    tauto
  constructor
  · intro h
    have hT : outOfRange mn mx = true := hiff.mpr h
    unfold setPandapterRange setWaterfallRange
    rw [if_pos hT, if_pos hT]
    exact ⟨rfl, rfl⟩
  · intro h
    have hF : ¬ outOfRange mn mx = true := fun hc => h (hiff.mp hc)
    unfold setPandapterRange setWaterfallRange
    rw [if_neg hF, if_neg hF]
    exact ⟨rfl, rfl⟩

/-- C8 witness: an out-of-range pair (-200, 0) is rejected and the accepted
pair (-80, 0) is stored exactly, on concrete initial states. -/
theorem c8_range_setter_guard_witness :
    (((-200 : ℚ) < -160 ∨ (30 : ℚ) < -200 ∨ (0 : ℚ) < -160 ∨ (30 : ℚ) < 0 ∨
        (0 : ℚ) < -200 + 2) ∧
      ¬ ((-80 : ℚ) < -160 ∨ (30 : ℚ) < -80 ∨ (0 : ℚ) < -160 ∨ (30 : ℚ) < 0 ∨
        (0 : ℚ) < -80 + 2)) ∧
    setPandapterRange (-200) 0 ⟨-100, -10, true⟩ = ⟨-100, -10, true⟩ ∧
    setPandapterRange (-80) 0 ⟨-100, -10, true⟩ = ⟨-80, 0, false⟩ ∧
    setWaterfallRange (-80) 0 ⟨-100, -10⟩ = ⟨-80, 0⟩ :=
  ⟨⟨Or.inl (by norm_num), by push_neg; norm_num⟩,
   (c8_range_setter_guard (-200) 0 ⟨-100, -10, true⟩ ⟨-100, -10⟩).1
     (Or.inl (by norm_num)) |>.1,
   (c8_range_setter_guard (-80) 0 ⟨-100, -10, true⟩ ⟨-100, -10⟩).2
     (by push_neg; norm_num) |>.1,
   (c8_range_setter_guard (-80) 0 ⟨-100, -10, true⟩ ⟨-100, -10⟩).2
     (by push_neg; norm_num) |>.2⟩

/- ----------------------------------------------------------------- -/
/- C10: colormap builder (lines 3652-3738).                           -/
/- ----------------------------------------------------------------- -/

/-- C10: an unrecognized scheme name (after case folding) leaves the color
table exactly as it was, and a recognized name overwrites all 256 entries:
the resulting table on [0, 256) is independent of the previous table. -/
theorem c10_colormap_builder (turboT plasmaT : ℤ → RGB)
    (viridisT magmaT infernoT grapeT : ℤ → ℚ × ℚ × ℚ)
    (cmap : List Char) (old oldB : ℤ → RGB) :
    (lowerName cmap ∉ cmapNames →
      setWfColormap turboT plasmaT viridisT magmaT infernoT grapeT cmap old = old) ∧
    (lowerName cmap ∈ cmapNames → ∀ i : ℤ, 0 ≤ i → i < 256 →
      setWfColormap turboT plasmaT viridisT magmaT infernoT grapeT cmap old i =
        setWfColormap turboT plasmaT viridisT magmaT infernoT grapeT cmap oldB i) := by
  constructor
  · intro h
    have h1 : lowerName cmap ≠ ['g','q','r','x'] := fun hh => h (by rw [hh]; decide)
    have h2 : lowerName cmap ≠ ['t','u','r','b','o'] := fun hh => h (by rw [hh]; decide)
    have h3 : lowerName cmap ≠ ['p','l','a','s','m','a'] := fun hh => h (by rw [hh]; decide)
    have h4 : lowerName cmap ≠ ['w','h','i','t','e','h','o','t','c','o','m','p','r','e','s','s','e','d'] :=
      fun hh => h (by rw [hh]; decide)
    have h5 : lowerName cmap ≠ ['w','h','i','t','e','h','o','t'] := fun hh => h (by rw [hh]; decide)
    have h6 : lowerName cmap ≠ ['b','l','a','c','k','h','o','t'] := fun hh => h (by rw [hh]; decide)
    have h7 : lowerName cmap ≠ ['v','i','r','i','d','i','s'] := fun hh => h (by rw [hh]; decide)
    have h8 : lowerName cmap ≠ ['m','a','g','m','a'] := fun hh => h (by rw [hh]; decide)
    have h9 : lowerName cmap ≠ ['i','n','f','e','r','n','o'] := fun hh => h (by rw [hh]; decide)
    have h10 : lowerName cmap ≠ ['g','r','a','p','e'] := fun hh => h (by rw [hh]; decide)
    simp only [setWfColormap]
    rw [if_neg h1, if_neg h2, if_neg h3, if_neg h4, if_neg h5, if_neg h6, if_neg h7,
      if_neg h8, if_neg h9, if_neg h10]
  · intro h i h0 h256
    have hcond : (0 : ℤ) ≤ i ∧ i < 256 := ⟨h0, h256⟩
    simp only [cmapNames, List.mem_cons, List.not_mem_nil, or_false] at h
    rcases h with hc | hc | hc | hc | hc | hc | hc | hc | hc | hc <;>
      simp +decide [setWfColormap, hc, writeTbl, h0, h256]

/-- C10 witness: the unrecognized name "foo" leaves a concrete table
unchanged, and the mixed-case recognized name "WhiteHot" overwrites entry 5
identically over two different previous tables. -/
theorem c10_colormap_builder_witness :
    (lowerName ['f','o','o'] ∉ cmapNames ∧
      lowerName ['W','h','i','t','e','H','o','t'] ∈ cmapNames) ∧
    setWfColormap (fun _ => (0,0,0)) (fun _ => (0,0,0)) (fun _ => (0,0,0))
        (fun _ => (0,0,0)) (fun _ => (0,0,0)) (fun _ => (0,0,0))
        ['f','o','o'] (fun _ => (7,7,7)) = (fun _ => (7,7,7)) ∧
    setWfColormap (fun _ => (0,0,0)) (fun _ => (0,0,0)) (fun _ => (0,0,0))
        (fun _ => (0,0,0)) (fun _ => (0,0,0)) (fun _ => (0,0,0))
        ['W','h','i','t','e','H','o','t'] (fun _ => (7,7,7)) 5 =
      setWfColormap (fun _ => (0,0,0)) (fun _ => (0,0,0)) (fun _ => (0,0,0))
        (fun _ => (0,0,0)) (fun _ => (0,0,0)) (fun _ => (0,0,0))
        ['W','h','i','t','e','H','o','t'] (fun _ => (9,9,9)) 5 :=
  ⟨⟨by decide, by decide⟩,
   (c10_colormap_builder (fun _ => (0,0,0)) (fun _ => (0,0,0)) (fun _ => (0,0,0))
     (fun _ => (0,0,0)) (fun _ => (0,0,0)) (fun _ => (0,0,0))
     ['f','o','o'] (fun _ => (7,7,7)) (fun _ => (7,7,7))).1 (by decide),
   (c10_colormap_builder (fun _ => (0,0,0)) (fun _ => (0,0,0)) (fun _ => (0,0,0))
     (fun _ => (0,0,0)) (fun _ => (0,0,0)) (fun _ => (0,0,0))
     ['W','h','i','t','e','H','o','t'] (fun _ => (7,7,7)) (fun _ => (9,9,9))).2
     (by decide) 5 (by decide) (by decide)⟩

/- ----------------------------------------------------------------- -/
/- C2: manual-span waterfall max mode (lines 1355-1440, 598-602).     -/
/- ----------------------------------------------------------------- -/

theorem wfAccum_fold_max (mpw : ℚ) (npts : ℤ) (hmpw : 0 < mpw) (p : ℤ)
    (hp : 0 ≤ p ∧ p < npts) :
    ∀ (frames : List (ℤ → ℚ)) (a0 : ℤ → ℚ) (c0 : ℤ),
    (frames.foldl (fun st d => wfAccumFrame WfMode.wfmMax mpw npts d st) (a0, c0)).1 p =
      (frames.map (fun f => f p)).foldl (fun acc x => max x acc) (a0 p) ∧
    (frames.foldl (fun st d => wfAccumFrame WfMode.wfmMax mpw npts d st) (a0, c0)).2 = c0 := by
  intro frames
  induction frames with
  | nil => intro a0 c0; exact ⟨rfl, rfl⟩
  | cons d rest ih =>
    intro a0 c0
    have hstep : wfAccumFrame WfMode.wfmMax mpw npts d (a0, c0) =
        (fun i => if 0 ≤ i ∧ i < npts then max (a0 i) (d i) else a0 i, c0) := by
      unfold wfAccumFrame
      rw [if_pos hmpw, if_neg (by simp)]
    simp only [List.foldl_cons, List.map_cons, hstep]
    have := ih (fun i => if 0 ≤ i ∧ i < npts then max (a0 i) (d i) else a0 i) c0
    refine ⟨?_, this.2⟩
    rw [this.1]
    simp only [if_pos hp]
    rw [max_comm]

theorem foldl_max_zero_eq_qRunMax (vs : List ℚ) (hne : vs ≠ [])
    (hnn : ∀ x ∈ vs, 0 ≤ x) :
    vs.foldl (fun acc x => max x acc) 0 = qRunMax vs := by
  cases vs with
  | nil => exact absurd rfl hne
  | cons v rest =>
    show rest.foldl (fun acc x => max x acc) (max v 0) = qRunMax (v :: rest)
    rw [max_eq_left (hnn v (List.mem_cons_self v rest))]
    rfl

/-- C2 (amended): in manual-span waterfall max mode the emitted pixel at an
in-range column p (also within the accumulated slot range [0, npts)) is the
colormap entry at the REVERSED index 255 - clamp(qRound((maxDb -
10*log10(m))*gain), 0, 255), where m is the maximum of the folded frames at
slot p, and the accumulator is cleared after emission. -/
theorem c2_waterfall_max_pixel (log10F : ℚ → ℚ) (colorTbl : ℤ → RGB)
    (wfMaxdB gain mpw : ℚ) (frames : List (ℤ → ℚ)) (ds : ℤ → ℚ)
    (xminV npts p : ℤ) (hmpw : 0 < mpw) (hne : frames ≠ [])
    (hin : xminV ≤ p ∧ p < xminV + npts) (hacc : 0 ≤ p ∧ p < npts)
    (hnn : ∀ f ∈ frames, 0 ≤ f p) :
    wfEmitRow log10F colorTbl wfMaxdB gain mpw WfMode.wfmMax
        (frames.foldl (fun st d => wfAccumFrame WfMode.wfmMax mpw npts d st)
          (clearedWfBuf, 0)).2
        (frames.foldl (fun st d => wfAccumFrame WfMode.wfmMax mpw npts d st)
          (clearedWfBuf, 0)).1
        ds xminV npts p =
      colorTbl (255 - max (min (qRound ((wfMaxdB -
        10 * log10F (qRunMax (frames.map (fun f => f p)))) * gain)) 255) 0) ∧
    wfAfterEmit mpw
        (frames.foldl (fun st d => wfAccumFrame WfMode.wfmMax mpw npts d st)
          (clearedWfBuf, 0)).1 =
      clearedWfBuf := by
  have hfold := wfAccum_fold_max mpw npts hmpw p hacc frames clearedWfBuf 0
  have hbuf : (frames.foldl (fun st d => wfAccumFrame WfMode.wfmMax mpw npts d st)
      (clearedWfBuf, 0)).1 p = qRunMax (frames.map (fun f => f p)) := by
    rw [hfold.1]
    show (frames.map (fun f => f p)).foldl (fun acc x => max x acc) 0 =
      qRunMax (frames.map (fun f => f p))
    refine foldl_max_zero_eq_qRunMax _ (fun hcon => hne (List.map_eq_nil_iff.mp hcon)) ?_
    intro x hx
    rcases List.mem_map.mp hx with ⟨f, hf, hfx⟩
    rw [← hfx]
    exact hnn f hf
  constructor
  · unfold wfEmitRow
    rw [if_pos hin]
    simp only
    rw [if_pos hmpw]
    have hlf : wfLineFactor WfMode.wfmMax mpw
        (frames.foldl (fun st d => wfAccumFrame WfMode.wfmMax mpw npts d st)
          (clearedWfBuf, 0)).2 = 1 := by
      unfold wfLineFactor
      rw [if_neg (by simp)]
    rw [hlf, mul_one, hbuf]
  · unfold wfAfterEmit
    rw [if_pos hmpw]

/-- C2 counterexample: with the program's own "whitehot" colormap (entry i
is the gray (i, i, i)), an abstract log10 returning 0, maxdB = 0 and gain =
1, a single accumulated frame of value 1 yields clamped index 0, and the
emitted pixel is ColorTbl[255 - 0] = (255, 255, 255) - not the claimed
ColorTbl[0] = (0, 0, 0). -/
theorem c2_reversed_colormap_counterexample :
    wfEmitRow (fun _ => 0)
        (setWfColormap (fun _ => (0, 0, 0)) (fun _ => (0, 0, 0)) (fun _ => (0, 0, 0))
          (fun _ => (0, 0, 0)) (fun _ => (0, 0, 0)) (fun _ => (0, 0, 0))
          ['w','h','i','t','e','h','o','t'] (fun _ => (0, 0, 0)))
        0 1 1 WfMode.wfmMax
        (wfAccumFrame WfMode.wfmMax 1 1 (fun _ => 1) (clearedWfBuf, 0)).2
        (wfAccumFrame WfMode.wfmMax 1 1 (fun _ => 1) (clearedWfBuf, 0)).1
        (fun _ => 1) 0 1 0 = (255, 255, 255) ∧
    max (min (qRound (((0 : ℚ) - 10 * 0) * 1)) 255) 0 = 0 ∧
    setWfColormap (fun _ => (0, 0, 0)) (fun _ => (0, 0, 0)) (fun _ => (0, 0, 0))
        (fun _ => (0, 0, 0)) (fun _ => (0, 0, 0)) (fun _ => (0, 0, 0))
        ['w','h','i','t','e','h','o','t'] (fun _ => (0, 0, 0)) 0 = (0, 0, 0) ∧
    ((255, 255, 255) : RGB) ≠ (0, 0, 0) := by
  have hq0 : qRound (((0 : ℚ) - 10 * 0) * 1) = 0 := by
    rw [show (((0 : ℚ) - 10 * 0) * 1) = 0 by norm_num]
    exact qRound_eval (n := 0) (by norm_num) (by norm_num) (by norm_num)
  refine ⟨?_, by rw [hq0]; decide, by decide, by decide⟩
  unfold wfEmitRow
  rw [if_pos (by decide : (0 : ℤ) ≤ 0 ∧ (0 : ℤ) < 0 + 1)]
  simp only
  rw [hq0]
  decide

/-- C2 witness: the amended theorem applied to the gray colormap, two
accumulated frames of values 1 and 2, and column 0. -/
theorem c2_waterfall_max_pixel_witness :
    ((0 : ℚ) < 1 ∧ ([fun _ => (1 : ℚ), fun _ => (2 : ℚ)] : List (ℤ → ℚ)) ≠ [] ∧
      ((0 : ℤ) ≤ 0 ∧ (0 : ℤ) < 0 + 1) ∧ ((0 : ℤ) ≤ 0 ∧ (0 : ℤ) < 1) ∧
      (∀ f ∈ ([fun _ => (1 : ℚ), fun _ => (2 : ℚ)] : List (ℤ → ℚ)), 0 ≤ f 0)) ∧
    wfEmitRow (fun _ => 0) (fun i => (i, i, i)) 0 1 1 WfMode.wfmMax
        (([fun _ => (1 : ℚ), fun _ => (2 : ℚ)] : List (ℤ → ℚ)).foldl
          (fun st d => wfAccumFrame WfMode.wfmMax 1 1 d st) (clearedWfBuf, 0)).2
        (([fun _ => (1 : ℚ), fun _ => (2 : ℚ)] : List (ℤ → ℚ)).foldl
          (fun st d => wfAccumFrame WfMode.wfmMax 1 1 d st) (clearedWfBuf, 0)).1
        (fun _ => 0) 0 1 0 =
      (fun i => ((i : ℤ), (i : ℤ), (i : ℤ))) (255 - max (min (qRound ((0 -
        10 * (fun _ => (0 : ℚ)) (qRunMax (([fun _ => (1 : ℚ), fun _ => (2 : ℚ)] :
          List (ℤ → ℚ)).map (fun f => f 0)))) * 1)) 255) 0) ∧
    wfAfterEmit 1
        (([fun _ => (1 : ℚ), fun _ => (2 : ℚ)] : List (ℤ → ℚ)).foldl
          (fun st d => wfAccumFrame WfMode.wfmMax 1 1 d st) (clearedWfBuf, 0)).1 =
      clearedWfBuf :=
  ⟨⟨by norm_num, by simp, ⟨by decide, by decide⟩, ⟨by decide, by decide⟩,
    by
      intro f hf
      rcases List.mem_cons.mp hf with h | h
      · rw [h]; norm_num
      · rw [List.mem_singleton.mp h]; norm_num⟩,
   (c2_waterfall_max_pixel (fun _ => 0) (fun i => (i, i, i)) 0 1 1
     [fun _ => (1 : ℚ), fun _ => (2 : ℚ)] (fun _ => 0) 0 1 0 (by norm_num)
     (by simp) ⟨by decide, by decide⟩ ⟨by decide, by decide⟩
     (by
       intro f hf
       rcases List.mem_cons.mp hf with h | h
       · rw [h]; norm_num
       · rw [List.mem_singleton.mp h]; norm_num)).1,
   (c2_waterfall_max_pixel (fun _ => 0) (fun i => (i, i, i)) 0 1 1
     [fun _ => (1 : ℚ), fun _ => (2 : ℚ)] (fun _ => 0) 0 1 0 (by norm_num)
     (by simp) ⟨by decide, by decide⟩ ⟨by decide, by decide⟩
     (by
       intro f hf
       rcases List.mem_cons.mp hf with h | h
       · rw [h]; norm_num
       · rw [List.mem_singleton.mp h]; norm_num)).2⟩

/- ----------------------------------------------------------------- -/
/- C5: histogram splat weights (lines 1176-1193, 1248-1266).          -/
/- ----------------------------------------------------------------- -/

theorem histSampleAdds_sum (log10F : ℚ → ℚ) (gain maxdB hW : ℚ)
    (histBins nbins : ℤ) (xDv v : ℚ) :
    ((histSampleAdds log10F gain maxdB hW histBins nbins xDv v).map (fun e => e.2)).sum =
      if 0 < histBinD log10F gain maxdB v ∧
          histBinD log10F gain maxdB v < (histBins : ℚ) then hW else 0 := by
  unfold histSampleAdds
  simp only
  by_cases h : 0 < histBinD log10F gain maxdB v ∧
      histBinD log10F gain maxdB v < (histBins : ℚ)
  · rw [if_pos h, if_pos h]
    simp only [List.map_cons, List.map_nil, List.sum_cons, List.sum_nil]
    ring
  · rw [if_neg h, if_neg h]
    simp

theorem histAdds_fold_sum (log10F : ℚ → ℚ) (gain maxdB hW : ℚ) (histBins nbins : ℤ)
    (xOfD : ℤ → ℚ) (raw : ℤ → ℚ) :
    ∀ L : List ℤ,
    ((L.foldr (fun i acc =>
        histSampleAdds log10F gain maxdB hW histBins nbins (xOfD i) (raw i) ++ acc) []).map
      (fun e => e.2)).sum =
      (((L.filter (fun i => decide (0 < histBinD log10F gain maxdB (raw i)) &&
        decide (histBinD log10F gain maxdB (raw i) < (histBins : ℚ)))).length : ℚ)) * hW := by
  intro L
  induction L with
  | nil => simp
  | cons i rest ih =>
    simp only [List.foldr_cons, List.map_append, List.sum_append, ih]
    rw [histSampleAdds_sum]
    by_cases h : 0 < histBinD log10F gain maxdB (raw i) ∧
        histBinD log10F gain maxdB (raw i) < (histBins : ℚ)
    · have hp : (decide (0 < histBinD log10F gain maxdB (raw i)) &&
          decide (histBinD log10F gain maxdB (raw i) < (histBins : ℚ))) = true := by
        simp only [Bool.and_eq_true, decide_eq_true_eq]
        exact h
      rw [if_pos h]
      simp only [List.filter_cons, hp, if_true]
      simp only [List.length_cons]
      push_cast
      ring
    · have hp : ¬ (decide (0 < histBinD log10F gain maxdB (raw i)) &&
          decide (histBinD log10F gain maxdB (raw i) < (histBins : ℚ))) = true := by
        simp only [Bool.and_eq_true, decide_eq_true_eq]
        exact h
      rw [if_neg h]
      rw [Bool.not_eq_true] at hp
      simp only [List.filter_cons, hp, Bool.false_eq_true, if_false]
      ring

theorem mem_histFold (log10F : ℚ → ℚ) (gain maxdB hW : ℚ) (histBins nbins : ℤ)
    (xOfD raw : ℤ → ℚ) (e : (ℤ × ℤ) × ℚ) :
    ∀ (L : List ℤ) (i : ℤ), i ∈ L →
    e ∈ histSampleAdds log10F gain maxdB hW histBins nbins (xOfD i) (raw i) →
    e ∈ L.foldr (fun i acc =>
        histSampleAdds log10F gain maxdB hW histBins nbins (xOfD i) (raw i) ++ acc) [] := by
  intro L
  induction L with
  | nil => intro i hi _; exact absurd hi (List.not_mem_nil i)
  | cons j rest ih =>
    intro i hi he
    simp only [List.foldr_cons, List.mem_append]
    rcases List.mem_cons.mp hi with h | h
    · subst h
      exact Or.inl he
    · exact Or.inr (ih i h he)

/-- C5 (amended): a sample whose fractional vertical position binD is
outside (0, histBinsDisplayed) adds nothing; an in-range sample's four
bilinear weights sum to exactly histWeight; every touched cell has a
nonnegative column index and a vertical index within [0, histBinsDisplayed)
- but the column index is NOT clamped above, so cells at columns >= numBins
can receive weight; and the frame total equals the in-range sample count
times histWeight. -/
theorem c5_histogram_weights (log10F : ℚ → ℚ) (gain maxdB hW : ℚ)
    (histBins nbins : ℤ) (xDv v : ℚ) (c : DrawCfg) (raw : ℤ → ℚ)
    (hhb : 1 ≤ histBins) (hnb : 1 ≤ nbins) :
    (¬ (0 < histBinD log10F gain maxdB v ∧
        histBinD log10F gain maxdB v < (histBins : ℚ)) →
      histSampleAdds log10F gain maxdB hW histBins nbins xDv v = []) ∧
    ((histSampleAdds log10F gain maxdB hW histBins nbins xDv v).map (fun e => e.2)).sum =
      (if 0 < histBinD log10F gain maxdB v ∧
          histBinD log10F gain maxdB v < (histBins : ℚ) then hW else 0) ∧
    (∀ e ∈ histSampleAdds log10F gain maxdB hW histBins nbins xDv v,
      0 ≤ e.1.1 ∧ 0 ≤ e.1.2 ∧ e.1.2 < histBins) ∧
    ((histFrameAdds log10F gain maxdB hW histBins c raw).map (fun e => e.2)).sum =
      (((binList c).filter (fun i => decide (0 < histBinD log10F gain maxdB (raw i)) &&
        decide (histBinD log10F gain maxdB (raw i) < (histBins : ℚ)))).length : ℚ) * hW := by
  refine ⟨?_, histSampleAdds_sum log10F gain maxdB hW histBins nbins xDv v, ?_, ?_⟩
  · intro h
    unfold histSampleAdds
    simp only
    rw [if_neg h]
  · intro e he
    unfold histSampleAdds at he
    simp only at he
    by_cases h : 0 < histBinD log10F gain maxdB v ∧
        histBinD log10F gain maxdB v < (histBins : ℚ)
    · rw [if_pos h] at he
      rcases List.mem_cons.mp he with h1 | he
      · rw [h1]; dsimp only; refine ⟨?_, ?_, ?_⟩ <;> omega
      rcases List.mem_cons.mp he with h1 | he
      · rw [h1]; dsimp only; refine ⟨?_, ?_, ?_⟩ <;> omega
      rcases List.mem_cons.mp he with h1 | he
      · rw [h1]; dsimp only; refine ⟨?_, ?_, ?_⟩ <;> omega
      rcases List.mem_cons.mp he with h1 | he
      · rw [h1]; dsimp only; refine ⟨?_, ?_, ?_⟩ <;> omega
      · exact absurd he (List.not_mem_nil e)
    · rw [if_neg h] at he
      exact absurd he (List.not_mem_nil e)
  · unfold histFrameAdds
    exact histAdds_fold_sum log10F gain maxdB hW histBins (numBins c) (xD c) raw (binList c)

theorem cfgSkip_xD5 : xD cfgSkip 2003 = 25/4 := by
  unfold xD
  rw [cfgSkip_startBin, cfgSkip_xScale]
  norm_num

/-- C5 counterexample: on cfgSkip (numBins = 4) with the program's own gain
histdBGainFactor = 32/|0-(-160)| = 1/5 and histWeight 25/8, the sample at
bin 2003 sits at horizontal position xD = 25/4 and its splat writes the
positive weight 75/128 into column 5 - outside both the displayed columns
[0, numBins) and the drawn range [0, xmax) - refuting "weight is added only
to cells whose column index is within bounds". -/
theorem c5_column_overflow_counterexample :
    histdBGainFactor 32 (-160) 0 = 1/5 ∧
    histWeightOf 25 32 4000 = 25/8 ∧
    numBins cfgSkip = 4 ∧ xmax cfgSkip = 4 ∧ 2003 ∈ binList cfgSkip ∧
    ((5, 0), 75/128) ∈
      histFrameAdds (fun _ => -(1/2)) (1/5) 0 (25/8) 32 cfgSkip (fun _ => 1) ∧
    ¬ ((5 : ℤ) ≤ numBins cfgSkip - 1) ∧ ¬ ((5 : ℤ) < xmax cfgSkip) ∧
    (75/128 : ℚ) ≠ 0 := by
  have hgain : histdBGainFactor 32 (-160) 0 = 1/5 := by
    unfold histdBGainFactor
    rw [show |(0 : ℚ) - (-160)| = 160 by rw [abs_of_nonneg (by norm_num)]; norm_num]
    norm_num
  have hw : histWeightOf 25 32 4000 = 25/8 := by
    unfold histWeightOf
    norm_num
  have hct1 : cTrunc ((25 : ℚ)/4 - 1/2) = 5 := by
    rw [show ((25 : ℚ)/4 - 1/2) = 23/4 by norm_num]
    exact cTrunc_eval (by norm_num) (by norm_num) (by norm_num)
  have hbinD : histBinD (fun _ => -(1/2)) (1/5) 0 ((fun _ => (1 : ℚ)) (2003 : ℤ)) = 1 := by
    unfold histBinD
    norm_num
  have hct2 : cTrunc (histBinD (fun _ => -(1/2)) (1/5) 0 ((fun _ => (1 : ℚ)) (2003 : ℤ)) - 1/2) = 0 := by
    rw [hbinD, show ((1 : ℚ) - 1/2) = 1/2 by norm_num]
    exact cTrunc_eval (by norm_num) (by norm_num) (by norm_num)
  have hmem : ((5, 0), (75 : ℚ)/128) ∈ histSampleAdds (fun _ => -(1/2)) (1/5) 0 (25/8) 32
      (numBins cfgSkip) (xD cfgSkip 2003) ((fun _ => (1 : ℚ)) 2003) := by
    unfold histSampleAdds
    simp only
    rw [if_pos (by rw [hbinD]; constructor <;> norm_num)]
    rw [cfgSkip_xD5, cfgSkip_numBins, hct1, hct2]
    refine List.mem_cons.mpr (Or.inl ?_)
    rw [hbinD]
    norm_num [Prod.ext_iff]
  refine ⟨hgain, hw, cfgSkip_numBins, cfgSkip_xmax, by rw [cfgSkip_binList]; decide, ?_,
    by rw [cfgSkip_numBins]; decide, by rw [cfgSkip_xmax]; decide, by norm_num⟩
  unfold histFrameAdds
  exact mem_histFold (fun _ => -(1/2)) (1/5) 0 (25/8) 32 (numBins cfgSkip) (xD cfgSkip)
    (fun _ => 1) ((5, 0), 75/128) (binList cfgSkip) 2003
    (by rw [cfgSkip_binList]; decide) hmem

/-- C5 witness: the amended theorem applied at the counterexample sample
(gain 1/5, weight 25/8, 32 vertical bins, 4 columns). -/
theorem c5_histogram_weights_witness :
    ((1 : ℤ) ≤ 32 ∧ (1 : ℤ) ≤ 4) ∧
    ((histSampleAdds (fun _ => -(1/2)) (1/5) 0 (25/8) 32 4 (25/4) 1).map
      (fun e => e.2)).sum =
      (if 0 < histBinD (fun _ => -(1/2)) (1/5) 0 1 ∧
          histBinD (fun _ => -(1/2)) (1/5) 0 1 < ((32 : ℤ) : ℚ) then (25/8 : ℚ) else 0) ∧
    (∀ e ∈ histSampleAdds (fun _ => -(1/2)) (1/5) 0 (25/8) 32 4 (25/4) 1,
      0 ≤ e.1.1 ∧ 0 ≤ e.1.2 ∧ e.1.2 < 32) :=
  ⟨⟨by decide, by decide⟩,
   (c5_histogram_weights (fun _ => -(1/2)) (1/5) 0 (25/8) 32 4 (25/4) 1 cfgRun rawRun
     (by decide) (by decide)).2.1,
   (c5_histogram_weights (fun _ => -(1/2)) (1/5) 0 (25/8) 32 4 (25/4) 1 cfgRun rawRun
     (by decide) (by decide)).2.2.1⟩

/- ----------------------------------------------------------------- -/
/- C6: peak detection (lines 1638-1718).                              -/
/- ----------------------------------------------------------------- -/

theorem pass1Step_smooth (src : ℤ → ℚ) (pw : ℤ) (log10F : ℚ → ℚ)
    (gain maxdB plotH : ℚ) (st : PeakState) (ix : ℤ) :
    (pass1Step src pw log10F gain maxdB plotH st ix).smooth =
      updFn st.smooth ix ((winFold src ix pw).2.2 / ((pw * 2 + 1 : ℤ) : ℚ)) := by
  unfold pass1Step
  by_cases h : src ix = (winFold src ix pw).2.1 ∧
      2 * ((winFold src ix pw).2.2 / ((pw * 2 + 1 : ℤ) : ℚ)) < src ix ∧
      4 * (winFold src ix pw).1 < src ix
  · rw [if_pos h]
  · rw [if_neg h]

theorem pass1Step_peaks_pos (src : ℤ → ℚ) (pw : ℤ) (log10F : ℚ → ℚ)
    (gain maxdB plotH : ℚ) (st : PeakState) (ix : ℤ)
    (h : src ix = (winFold src ix pw).2.1 ∧
      2 * ((winFold src ix pw).2.2 / ((pw * 2 + 1 : ℤ) : ℚ)) < src ix ∧
      4 * (winFold src ix pw).1 < src ix) :
    (pass1Step src pw log10F gain maxdB plotH st ix).peaks =
      fun k => if k = ix then some (peakY log10F gain maxdB plotH (src ix))
        else st.peaks k := by
  unfold pass1Step
  rw [if_pos h]

theorem pass1Step_peaks_neg (src : ℤ → ℚ) (pw : ℤ) (log10F : ℚ → ℚ)
    (gain maxdB plotH : ℚ) (st : PeakState) (ix : ℤ)
    (h : ¬ (src ix = (winFold src ix pw).2.1 ∧
      2 * ((winFold src ix pw).2.2 / ((pw * 2 + 1 : ℤ) : ℚ)) < src ix ∧
      4 * (winFold src ix pw).1 < src ix)) :
    (pass1Step src pw log10F gain maxdB plotH st ix).peaks = st.peaks := by
  unfold pass1Step
  rw [if_neg h]

theorem pass1_fold_peaks (src : ℤ → ℚ) (pw : ℤ) (log10F : ℚ → ℚ)
    (gain maxdB plotH : ℚ) :
    ∀ (L : List ℤ) (st : PeakState),
    (∀ ix ∈ L, ¬ (src ix = (winFold src ix pw).2.1 ∧
      2 * ((winFold src ix pw).2.2 / ((pw * 2 + 1 : ℤ) : ℚ)) < src ix ∧
      4 * (winFold src ix pw).1 < src ix)) →
    (L.foldl (pass1Step src pw log10F gain maxdB plotH) st).peaks = st.peaks := by
  intro L
  induction L with
  | nil => intro st _; rfl
  | cons i rest ih =>
    intro st hall
    simp only [List.foldl_cons]
    rw [ih _ (fun ix hix => hall ix (List.mem_cons.mpr (Or.inr hix)))]
    exact pass1Step_peaks_neg src pw log10F gain maxdB plotH st i
      (hall i (List.mem_cons_self i rest))

theorem pass1_fold_smooth (src : ℤ → ℚ) (pw : ℤ) (log10F : ℚ → ℚ)
    (gain maxdB plotH : ℚ) :
    ∀ (L : List ℤ) (st : PeakState),
    (L.foldl (pass1Step src pw log10F gain maxdB plotH) st).smooth =
      L.foldl (fun f ix =>
        updFn f ix ((winFold src ix pw).2.2 / ((pw * 2 + 1 : ℤ) : ℚ))) st.smooth := by
  intro L
  induction L with
  | nil => intro st; rfl
  | cons i rest ih =>
    intro st
    simp only [List.foldl_cons]
    rw [ih]
    rw [pass1Step_smooth]

theorem pass2Step_some (smooth : ℤ → ℚ) (pw pw2 : ℤ) (log10F : ℚ → ℚ)
    (gain maxdB plotH : ℚ) (peaks : ℤ → Option ℚ) (ix : ℤ)
    (hs : ((pass2Step smooth pw pw2 log10F gain maxdB plotH peaks ix) ix).isSome = true) :
    (peaks ix).isSome = true ∨
    (smooth ix = (winFold smooth ix pw2).2.1 ∧
      2 * ((winFold smooth ix pw2).2.2 / ((pw2 * 2 : ℤ) : ℚ)) < smooth ix ∧
      4 * (winFold smooth ix pw2).1 < smooth ix ∧
      ∀ j ∈ intRange (-pw) pw, peaks (ix + j) = none) := by
  unfold pass2Step at hs
  by_cases hcond : smooth ix = (winFold smooth ix pw2).2.1 ∧
      2 * ((winFold smooth ix pw2).2.2 / ((pw2 * 2 : ℤ) : ℚ)) < smooth ix ∧
      4 * (winFold smooth ix pw2).1 < smooth ix
  · rw [if_pos hcond] at hs
    by_cases hany : (intRange (-pw) pw).any (fun j => (peaks (ix + j)).isSome) = true
    · rw [if_pos hany] at hs
      exact Or.inl hs
    · refine Or.inr ⟨hcond.1, hcond.2.1, hcond.2.2, ?_⟩
      intro j hj
      rw [List.any_eq_true] at hany
      push_neg at hany
      have := hany j hj
      exact Option.not_isSome_iff_eq_none.mp this
  · rw [if_neg hcond] at hs
    exact Or.inl hs

theorem spike_detect (log10F : ℚ → ℚ) (gain maxdB plotH : ℚ) :
    (pass1 srcSpike 1 log10F gain maxdB plotH (fun _ => 1) 0 11).peaks 5 =
      some (peakY log10F gain maxdB plotH 10) ∧
    (∀ k : ℤ, k ≠ 5 →
      (pass1 srcSpike 1 log10F gain maxdB plotH (fun _ => 1) 0 11).peaks k = none) ∧
    (peakDetect srcSpike 1 log10F gain maxdB plotH (fun _ => 1) 0 11).peaks =
      (pass1 srcSpike 1 log10F gain maxdB plotH (fun _ => 1) 0 11).peaks := by
  have hr3 : intRange (-1 : ℤ) 1 = [-1, 0, 1] := by decide
  have hwfFlat : ∀ ix : ℤ, ¬(ix = 5) → ¬(ix + -1 = 5) → ¬(ix + 0 = 5) →
      ¬(ix + 1 = 5) → winFold srcSpike ix 1 = (1, 1, 3) := by
    intro ix h0 h1 h2 h3
    unfold winFold srcSpike
    rw [hr3]
    simp only [List.foldl_cons, List.foldl_nil, if_neg h0, if_neg h1, if_neg h2, if_neg h3]
    norm_num [min_def, max_def, Prod.ext_iff]
  have hwf4 : winFold srcSpike 4 1 = (1, 10, 12) := by
    unfold winFold srcSpike
    rw [hr3]
    simp only [List.foldl_cons, List.foldl_nil]
    norm_num [min_def, max_def, Prod.ext_iff]
  have hwf5 : winFold srcSpike 5 1 = (1, 10, 12) := by
    unfold winFold srcSpike
    rw [hr3]
    simp only [List.foldl_cons, List.foldl_nil]
    norm_num [min_def, max_def, Prod.ext_iff]
  have hwf6 : winFold srcSpike 6 1 = (1, 10, 12) := by
    unfold winFold srcSpike
    rw [hr3]
    simp only [List.foldl_cons, List.foldl_nil]
    norm_num [min_def, max_def, Prod.ext_iff]
  have hc5 : srcSpike 5 = (winFold srcSpike 5 1).2.1 ∧
      2 * ((winFold srcSpike 5 1).2.2 / ((1 * 2 + 1 : ℤ) : ℚ)) < srcSpike 5 ∧
      4 * (winFold srcSpike 5 1).1 < srcSpike 5 := by
    rw [hwf5]
    norm_num [srcSpike]
  have hneg1 : ∀ ix ∈ ([1, 2, 3, 4] : List ℤ),
      ¬ (srcSpike ix = (winFold srcSpike ix 1).2.1 ∧
        2 * ((winFold srcSpike ix 1).2.2 / ((1 * 2 + 1 : ℤ) : ℚ)) < srcSpike ix ∧
        4 * (winFold srcSpike ix 1).1 < srcSpike ix) := by
    intro ix hix
    have hx : ix = 1 ∨ ix = 2 ∨ ix = 3 ∨ ix = 4 := by simpa using hix
    rcases hx with rfl | rfl | rfl | rfl
    · rw [hwfFlat 1 (by decide) (by decide) (by decide) (by decide)]
      norm_num [srcSpike]
    · rw [hwfFlat 2 (by decide) (by decide) (by decide) (by decide)]
      norm_num [srcSpike]
    · rw [hwfFlat 3 (by decide) (by decide) (by decide) (by decide)]
      norm_num [srcSpike]
    · rw [hwf4]
      norm_num [srcSpike]
  have hneg2 : ∀ ix ∈ ([6, 7, 8, 9] : List ℤ),
      ¬ (srcSpike ix = (winFold srcSpike ix 1).2.1 ∧
        2 * ((winFold srcSpike ix 1).2.2 / ((1 * 2 + 1 : ℤ) : ℚ)) < srcSpike ix ∧
        4 * (winFold srcSpike ix 1).1 < srcSpike ix) := by
    intro ix hix
    have hx : ix = 6 ∨ ix = 7 ∨ ix = 8 ∨ ix = 9 := by simpa using hix
    rcases hx with rfl | rfl | rfl | rfl
    · rw [hwf6]
      norm_num [srcSpike]
    · rw [hwfFlat 7 (by decide) (by decide) (by decide) (by decide)]
      norm_num [srcSpike]
    · rw [hwfFlat 8 (by decide) (by decide) (by decide) (by decide)]
      norm_num [srcSpike]
    · rw [hwfFlat 9 (by decide) (by decide) (by decide) (by decide)]
      norm_num [srcSpike]
  have hL : intRange (0 + 1) (0 + 11 - 1 - 1) = [1, 2, 3, 4] ++ 5 :: [6, 7, 8, 9] := by
    decide
  have hpk : (pass1 srcSpike 1 log10F gain maxdB plotH (fun _ => 1) 0 11).peaks =
      fun k => if k = 5 then some (peakY log10F gain maxdB plotH 10) else none := by
    unfold pass1
    rw [hL, List.foldl_append, List.foldl_cons]
    rw [pass1_fold_peaks srcSpike 1 log10F gain maxdB plotH [6, 7, 8, 9] _ hneg2]
    rw [pass1Step_peaks_pos srcSpike 1 log10F gain maxdB plotH _ 5 hc5]
    funext k
    by_cases hk : k = 5
    · rw [if_pos hk, if_pos hk]
      norm_num [srcSpike]
    · rw [if_neg hk, if_neg hk]
      rw [pass1_fold_peaks srcSpike 1 log10F gain maxdB plotH [1, 2, 3, 4] _ hneg1]
  have hsm : (pass1 srcSpike 1 log10F gain maxdB plotH (fun _ => 1) 0 11).smooth =
      (([1, 2, 3, 4] ++ 5 :: [6, 7, 8, 9] : List ℤ).foldl (fun f ix =>
        updFn f ix ((winFold srcSpike ix 1).2.2 / ((1 * 2 + 1 : ℤ) : ℚ)))
        (fun _ => 1)) := by
    unfold pass1
    rw [hL]
    exact pass1_fold_smooth srcSpike 1 log10F gain maxdB plotH _ _
  have hsmv : ∀ k : ℤ, (pass1 srcSpike 1 log10F gain maxdB plotH (fun _ => 1) 0 11).smooth k =
      (if 4 ≤ k ∧ k ≤ 6 then (4 : ℚ) else 1) := by
    intro k
    rw [hsm]
    simp only [List.cons_append, List.nil_append, List.foldl_cons, List.foldl_nil]
    rw [hwfFlat 1 (by decide) (by decide) (by decide) (by decide),
      hwfFlat 2 (by decide) (by decide) (by decide) (by decide),
      hwfFlat 3 (by decide) (by decide) (by decide) (by decide),
      hwf4, hwf5, hwf6,
      hwfFlat 7 (by decide) (by decide) (by decide) (by decide),
      hwfFlat 8 (by decide) (by decide) (by decide) (by decide),
      hwfFlat 9 (by decide) (by decide) (by decide) (by decide)]
    simp only [updFn]
    by_cases h9 : k = 9
    · subst h9; norm_num
    by_cases h8 : k = 8
    · subst h8; norm_num
    by_cases h7 : k = 7
    · subst h7; norm_num
    by_cases h6 : k = 6
    · subst h6; norm_num
    by_cases h5 : k = 5
    · subst h5; norm_num
    by_cases h4 : k = 4
    · subst h4; norm_num
    by_cases h3 : k = 3
    · subst h3; norm_num
    by_cases h2 : k = 2
    · subst h2; norm_num
    by_cases h1 : k = 1
    · subst h1; norm_num
    rw [if_neg h9, if_neg h8, if_neg h7, if_neg h6, if_neg h5, if_neg h4, if_neg h3,
      if_neg h2, if_neg h1, if_neg (by omega)]
  have hr11 : intRange (-5 : ℤ) 5 = [-5, -4, -3, -2, -1, 0, 1, 2, 3, 4, 5] := by decide
  have hwfS : winFold ((pass1 srcSpike 1 log10F gain maxdB plotH (fun _ => 1) 0 11).smooth)
      5 5 = (1, 4, 20) := by
    unfold winFold
    rw [hr11]
    simp only [List.foldl_cons, List.foldl_nil]
    rw [show (5 : ℤ) + -5 = 0 by decide, show (5 : ℤ) + -4 = 1 by decide,
      show (5 : ℤ) + -3 = 2 by decide, show (5 : ℤ) + -2 = 3 by decide,
      show (5 : ℤ) + -1 = 4 by decide, show (5 : ℤ) + 0 = 5 by decide,
      show (5 : ℤ) + 1 = 6 by decide, show (5 : ℤ) + 2 = 7 by decide,
      show (5 : ℤ) + 3 = 8 by decide, show (5 : ℤ) + 4 = 9 by decide,
      show (5 : ℤ) + 5 = 10 by decide]
    rw [hsmv 0, hsmv 1, hsmv 2, hsmv 3, hsmv 4, hsmv 5, hsmv 6, hsmv 7, hsmv 8,
      hsmv 9, hsmv 10]
    norm_num [min_def, max_def, Prod.ext_iff]
  have hL2 : intRange (0 + 1 * 5) (0 + 11 - 1 * 5 - 1) = [5] := by decide
  have hstep : pass2Step
      ((pass1 srcSpike 1 log10F gain maxdB plotH (fun _ => 1) 0 11).smooth) 1 (1 * 5)
      log10F gain maxdB plotH
      ((pass1 srcSpike 1 log10F gain maxdB plotH (fun _ => 1) 0 11).peaks) 5 =
      (pass1 srcSpike 1 log10F gain maxdB plotH (fun _ => 1) 0 11).peaks := by
    unfold pass2Step
    rw [if_neg ?_]
    rw [show (1 * 5 : ℤ) = 5 from rfl]
    rw [hwfS, hsmv 5]
    norm_num
  refine ⟨?_, ?_, ?_⟩
  · rw [hpk]
    norm_num
  · intro k hk
    rw [hpk]
    simp only [if_neg hk]
  · unfold peakDetect pass2
    simp only
    rw [hL2]
    simp only [List.foldl_cons, List.foldl_nil]
    exact hstep

theorem plateau_detect (log10F : ℚ → ℚ) (gain maxdB plotH : ℚ) :
    (peakDetect srcC6 1 log10F gain maxdB plotH (fun _ => 1) 0 11).peaks 5 = none ∧
    (claimPeakDetect srcC6 1 log10F gain maxdB plotH (fun _ => 1) 0 11).peaks 5 =
      some (peakY log10F gain maxdB plotH 10) := by
  have hr3 : intRange (-1 : ℤ) 1 = [-1, 0, 1] := by decide
  have hwfFlatC : ∀ ix : ℤ, ¬(4 ≤ ix ∧ ix ≤ 6) → ¬(4 ≤ ix + -1 ∧ ix + -1 ≤ 6) →
      ¬(4 ≤ ix + 0 ∧ ix + 0 ≤ 6) → ¬(4 ≤ ix + 1 ∧ ix + 1 ≤ 6) →
      winFold srcC6 ix 1 = (3, 3, 9) := by
    intro ix h0 h1 h2 h3
    unfold winFold srcC6
    rw [hr3]
    simp only [List.foldl_cons, List.foldl_nil, if_neg h0, if_neg h1, if_neg h2, if_neg h3]
    norm_num [min_def, max_def, Prod.ext_iff]
  have hwfC3 : winFold srcC6 3 1 = (3, 10, 16) := by
    unfold winFold srcC6
    rw [hr3]
    simp only [List.foldl_cons, List.foldl_nil]
    norm_num [min_def, max_def, Prod.ext_iff]
  have hwfC4 : winFold srcC6 4 1 = (3, 10, 23) := by
    unfold winFold srcC6
    rw [hr3]
    simp only [List.foldl_cons, List.foldl_nil]
    norm_num [min_def, max_def, Prod.ext_iff]
  have hwfC5 : winFold srcC6 5 1 = (10, 10, 30) := by
    unfold winFold srcC6
    rw [hr3]
    simp only [List.foldl_cons, List.foldl_nil]
    norm_num [min_def, max_def, Prod.ext_iff]
  have hwfC6 : winFold srcC6 6 1 = (3, 10, 23) := by
    unfold winFold srcC6
    rw [hr3]
    simp only [List.foldl_cons, List.foldl_nil]
    norm_num [min_def, max_def, Prod.ext_iff]
  have hwfC7 : winFold srcC6 7 1 = (3, 10, 16) := by
    unfold winFold srcC6
    rw [hr3]
    simp only [List.foldl_cons, List.foldl_nil]
    norm_num [min_def, max_def, Prod.ext_iff]
  have hnegC : ∀ ix ∈ ([1, 2, 3, 4, 5, 6, 7, 8, 9] : List ℤ),
      ¬ (srcC6 ix = (winFold srcC6 ix 1).2.1 ∧
        2 * ((winFold srcC6 ix 1).2.2 / ((1 * 2 + 1 : ℤ) : ℚ)) < srcC6 ix ∧
        4 * (winFold srcC6 ix 1).1 < srcC6 ix) := by
    intro ix hix
    have hx : ix = 1 ∨ ix = 2 ∨ ix = 3 ∨ ix = 4 ∨ ix = 5 ∨ ix = 6 ∨ ix = 7 ∨ ix = 8 ∨
        ix = 9 := by simpa using hix
    rcases hx with rfl | rfl | rfl | rfl | rfl | rfl | rfl | rfl | rfl
    · rw [hwfFlatC 1 (by decide) (by decide) (by decide) (by decide)]
      norm_num [srcC6]
    · rw [hwfFlatC 2 (by decide) (by decide) (by decide) (by decide)]
      norm_num [srcC6]
    · rw [hwfC3]
      norm_num [srcC6]
    · rw [hwfC4]
      norm_num [srcC6]
    · rw [hwfC5]
      norm_num [srcC6]
    · rw [hwfC6]
      norm_num [srcC6]
    · rw [hwfC7]
      norm_num [srcC6]
    · rw [hwfFlatC 8 (by decide) (by decide) (by decide) (by decide)]
      norm_num [srcC6]
    · rw [hwfFlatC 9 (by decide) (by decide) (by decide) (by decide)]
      norm_num [srcC6]
  have hLfull : intRange (0 + 1) (0 + 11 - 1 - 1) = [1, 2, 3, 4, 5, 6, 7, 8, 9] := by
    decide
  have hpkC : (pass1 srcC6 1 log10F gain maxdB plotH (fun _ => 1) 0 11).peaks =
      (fun _ => (none : Option ℚ)) := by
    unfold pass1
    rw [hLfull]
    exact pass1_fold_peaks srcC6 1 log10F gain maxdB plotH _ _ hnegC
  have hsmC : (pass1 srcC6 1 log10F gain maxdB plotH (fun _ => 1) 0 11).smooth =
      (([1, 2, 3, 4, 5, 6, 7, 8, 9] : List ℤ).foldl (fun f ix =>
        updFn f ix ((winFold srcC6 ix 1).2.2 / ((1 * 2 + 1 : ℤ) : ℚ)))
        (fun _ => 1)) := by
    unfold pass1
    rw [hLfull]
    exact pass1_fold_smooth srcC6 1 log10F gain maxdB plotH _ _
  have hsmvC : ∀ k : ℤ, (pass1 srcC6 1 log10F gain maxdB plotH (fun _ => 1) 0 11).smooth k =
      (if k = 5 then (10 : ℚ) else if k = 4 ∨ k = 6 then 23/3 else
        if k = 3 ∨ k = 7 then 16/3 else if 1 ≤ k ∧ k ≤ 9 then 3 else 1) := by
    intro k
    rw [hsmC]
    simp only [List.foldl_cons, List.foldl_nil]
    rw [hwfFlatC 1 (by decide) (by decide) (by decide) (by decide),
      hwfFlatC 2 (by decide) (by decide) (by decide) (by decide),
      hwfC3, hwfC4, hwfC5, hwfC6, hwfC7,
      hwfFlatC 8 (by decide) (by decide) (by decide) (by decide),
      hwfFlatC 9 (by decide) (by decide) (by decide) (by decide)]
    simp only [updFn]
    by_cases h9 : k = 9
    · subst h9; norm_num
    by_cases h8 : k = 8
    · subst h8; norm_num
    by_cases h7 : k = 7
    · subst h7; norm_num
    by_cases h6 : k = 6
    · subst h6; norm_num
    by_cases h5 : k = 5
    · subst h5; norm_num
    by_cases h4 : k = 4
    · subst h4; norm_num
    by_cases h3 : k = 3
    · subst h3; norm_num
    by_cases h2 : k = 2
    · subst h2; norm_num
    by_cases h1 : k = 1
    · subst h1; norm_num
    rw [if_neg h9, if_neg h8, if_neg h7, if_neg h6, if_neg h5, if_neg h4, if_neg h3,
      if_neg h2, if_neg h1]
    rw [if_neg h5, if_neg (by tauto), if_neg (by tauto), if_neg (by omega)]
  have hsm5C : (pass1 srcC6 1 log10F gain maxdB plotH (fun _ => 1) 0 11).smooth 5 = 10 := by
    rw [hsmvC 5]
    norm_num
  have hr11 : intRange (-5 : ℤ) 5 = [-5, -4, -3, -2, -1, 0, 1, 2, 3, 4, 5] := by decide
  have hwfSC : winFold ((pass1 srcC6 1 log10F gain maxdB plotH (fun _ => 1) 0 11).smooth)
      5 5 = (1, 10, 50) := by
    unfold winFold
    rw [hr11]
    simp only [List.foldl_cons, List.foldl_nil]
    rw [show (5 : ℤ) + -5 = 0 by decide, show (5 : ℤ) + -4 = 1 by decide,
      show (5 : ℤ) + -3 = 2 by decide, show (5 : ℤ) + -2 = 3 by decide,
      show (5 : ℤ) + -1 = 4 by decide, show (5 : ℤ) + 0 = 5 by decide,
      show (5 : ℤ) + 1 = 6 by decide, show (5 : ℤ) + 2 = 7 by decide,
      show (5 : ℤ) + 3 = 8 by decide, show (5 : ℤ) + 4 = 9 by decide,
      show (5 : ℤ) + 5 = 10 by decide]
    rw [hsmvC 0, hsmvC 1, hsmvC 2, hsmvC 3, hsmvC 4, hsmvC 5, hsmvC 6, hsmvC 7,
      hsmvC 8, hsmvC 9, hsmvC 10]
    norm_num [min_def, max_def, Prod.ext_iff]
  have hL2 : intRange (0 + 1 * 5) (0 + 11 - 1 * 5 - 1) = [5] := by decide
  constructor
  · unfold peakDetect pass2
    simp only
    rw [hL2]
    simp only [List.foldl_cons, List.foldl_nil]
    have hstepC : pass2Step
        ((pass1 srcC6 1 log10F gain maxdB plotH (fun _ => 1) 0 11).smooth) 1 (1 * 5)
        log10F gain maxdB plotH
        ((pass1 srcC6 1 log10F gain maxdB plotH (fun _ => 1) 0 11).peaks) 5 =
        (pass1 srcC6 1 log10F gain maxdB plotH (fun _ => 1) 0 11).peaks := by
      unfold pass2Step
      rw [if_neg ?_]
      rw [show (1 * 5 : ℤ) = 5 from rfl]
      rw [hwfSC, hsm5C]
      norm_num
    rw [hstepC, hpkC]
  · unfold claimPeakDetect
    simp only
    rw [hL2]
    simp only [List.foldl_cons, List.foldl_nil]
    unfold claimPass2Step
    rw [show (1 * 5 : ℤ) = 5 from rfl]
    rw [hwfSC, hsm5C]
    rw [if_pos (by norm_num)]
    rw [hpkC]
    rw [if_neg (by rw [hr3]; simp)]
    simp

/-- C6 (amended): pass 1 stores the true windowed mean (divisor 2*pw+1) into
the smooth buffer and flags a column exactly when its value is the window
max, above twice the window mean and above four times the window min; a
pass-2 step can record a wide peak only where the analogous test computed
with divisor pw2*2 (NOT the window length 2*pw2+1) holds and NO peak of any
kind - narrow or previously recorded wide - lies within pw columns; and the
single isolated narrow spike srcSpike (10x a flat baseline, width 1) is
flagged by pass 1 at column 5 and pass 2 leaves the peak map unchanged. -/
theorem c6_peak_detection (src smooth : ℤ → ℚ) (pw pw2 : ℤ) (log10F : ℚ → ℚ)
    (gain maxdB plotH : ℚ) (st : PeakState) (peaks : ℤ → Option ℚ) (ix : ℤ) :
    ((pass1Step src pw log10F gain maxdB plotH st ix).smooth =
      updFn st.smooth ix ((winFold src ix pw).2.2 / ((pw * 2 + 1 : ℤ) : ℚ))) ∧
    ((src ix = (winFold src ix pw).2.1 ∧
        2 * ((winFold src ix pw).2.2 / ((pw * 2 + 1 : ℤ) : ℚ)) < src ix ∧
        4 * (winFold src ix pw).1 < src ix) →
      (pass1Step src pw log10F gain maxdB plotH st ix).peaks ix =
        some (peakY log10F gain maxdB plotH (src ix))) ∧
    (¬ (src ix = (winFold src ix pw).2.1 ∧
        2 * ((winFold src ix pw).2.2 / ((pw * 2 + 1 : ℤ) : ℚ)) < src ix ∧
        4 * (winFold src ix pw).1 < src ix) →
      (pass1Step src pw log10F gain maxdB plotH st ix).peaks = st.peaks) ∧
    (((pass2Step smooth pw pw2 log10F gain maxdB plotH peaks ix) ix).isSome = true →
      (peaks ix).isSome = true ∨
      (smooth ix = (winFold smooth ix pw2).2.1 ∧
        2 * ((winFold smooth ix pw2).2.2 / ((pw2 * 2 : ℤ) : ℚ)) < smooth ix ∧
        4 * (winFold smooth ix pw2).1 < smooth ix ∧
        ∀ j ∈ intRange (-pw) pw, peaks (ix + j) = none)) ∧
    ((pass1 srcSpike 1 log10F gain maxdB plotH (fun _ => 1) 0 11).peaks 5 =
      some (peakY log10F gain maxdB plotH 10) ∧
     (peakDetect srcSpike 1 log10F gain maxdB plotH (fun _ => 1) 0 11).peaks =
      (pass1 srcSpike 1 log10F gain maxdB plotH (fun _ => 1) 0 11).peaks) := by
  refine ⟨pass1Step_smooth src pw log10F gain maxdB plotH st ix, ?_, ?_, ?_, ?_, ?_⟩
  · intro h
    rw [pass1Step_peaks_pos src pw log10F gain maxdB plotH st ix h]
    simp
  · intro h
    exact pass1Step_peaks_neg src pw log10F gain maxdB plotH st ix h
  · exact pass2Step_some smooth pw pw2 log10F gain maxdB plotH peaks ix
  · exact (spike_detect log10F gain maxdB plotH).1
  · exact (spike_detect log10F gain maxdB plotH).2.2

/-- C6 counterexample: on the width-3 plateau srcC6 the code records no wide
peak at column 5 (the pass-2 mean uses divisor pw2*2 = 10, giving 2*avg =
10, not less than the value 10), while the claim's version of pass 2 (true
window mean, divisor 2*pw2+1 = 11) does record one - the claimed "same
test" description of pass 2 contradicts the code. -/
theorem c6_pass2_mean_counterexample :
    (peakDetect srcC6 1 (fun _ => 0) 1 0 100 (fun _ => 1) 0 11).peaks 5 = none ∧
    (claimPeakDetect srcC6 1 (fun _ => 0) 1 0 100 (fun _ => 1) 0 11).peaks 5 =
      some (peakY (fun _ => 0) 1 0 100 10) ∧
    (none : Option ℚ) ≠ some (peakY (fun _ => 0) 1 0 100 10) :=
  ⟨(plateau_detect (fun _ => 0) 1 0 100).1, (plateau_detect (fun _ => 0) 1 0 100).2,
   by simp⟩

/-- C6 witness: the amended theorem applied at the spike source, window 1,
column 5 and concrete display parameters. -/
theorem c6_peak_detection_witness :
    (pass1Step srcSpike 1 (fun _ => 0) 1 0 100
        { smooth := fun _ => 1, peaks := fun _ => none } 5).smooth =
      updFn (fun _ => 1) 5 ((winFold srcSpike 5 1).2.2 / ((1 * 2 + 1 : ℤ) : ℚ)) ∧
    (pass1 srcSpike 1 (fun _ => 0) 1 0 100 (fun _ => 1) 0 11).peaks 5 =
      some (peakY (fun _ => 0) 1 0 100 10) :=
  ⟨(c6_peak_detection srcSpike (fun _ => 1) 1 5 (fun _ => 0) 1 0 100
      { smooth := fun _ => 1, peaks := fun _ => none } (fun _ => none) 5).1,
   (c6_peak_detection srcSpike (fun _ => 1) 1 5 (fun _ => 0) 1 0 100
      { smooth := fun _ => 1, peaks := fun _ => none } (fun _ => none) 5).2.2.2.2.1⟩
